import Mathlib

/-!
# TCP server side of the RPC transport (`src/rpc/src/rpcServer.c`)

A shallow embedding of the acceptor, the per-worker event handler, the
connection registry and the teardown path of `rpcServer.c`, followed by the
properties proved about them.

Conventions of the embedding.

* A pointer to an `SFdObj` is a natural number, `0` being `NULL`.  The heap of
  `SFdObj` blocks is a total map from addresses to records; a block that was
  zeroed by `memset` and released keeps its zero contents until `malloc` hands
  the address out again.
* A pointer to an `SThreadObj` is an index into the array
  `pServerObj->pThreadObj`; `none` is `NULL`.
* Every call to a collaborator that is not part of this file (`accept`,
  `malloc`, `epoll_ctl`, `taosReadMsg`, the upper-layer callback, ...) is
  resolved by a value supplied in the input of the step that makes the call.
* Whether `malloc` returns a block for a message buffer is such a value too.
  Where a property depends on what the allocator does with a negative size,
  the theorem assumes `FrameIn.mallocSound`: the size is passed as `size_t`,
  and a negative `int` converted to a 64-bit `size_t` is refused.
* Mutexes, condition variables, thread identities and log text carry no data
  the properties below talk about; every step is taken atomically.
-/

namespace RpcServer

/-! ## Definitions -/

/-! ### Data model -/

/-- Constants that `rpcServer.c` takes from headers that are not part of the
source tree at hand (`rpcHead.h`): `sizeof(SRpcHead)`, the byte offset of the
field `msgLen` inside `SRpcHead`, and the global `int tsRpcOverhead`, the size
of the prelude reserved in front of every message. -/
structure Layout where
  headSize : Nat
  msgLenOff : Nat
  tsRpcOverhead : Int
deriving DecidableEq, Repr

/-- The record `SFdObj` (`ipstr`, used for log text only, is left out). -/
structure SFdObj where
  signature : Nat
  fd : Int
  thandle : Nat
  ip : Nat
  port : Nat
  pThreadObj : Option Nat
  prev : Nat
  next : Nat
deriving DecidableEq, Repr

/-- The contents of an `SFdObj` block after `memset(pFdObj, 0, sizeof(SFdObj))`. -/
def SFdObj.zero : SFdObj :=
  { signature := 0, fd := 0, thandle := 0, ip := 0, port := 0,
    pThreadObj := none, prev := 0, next := 0 }

/-- The record `SThreadObj` (thread identity, mutex, condition variable and
log text left out; `processData` is the upper-layer callback, whose results
are inputs of the steps that call it).  The C field `numOfFds` is an `int`; it
is kept as an unbounded integer here, since a count beyond `2^31 - 1` would
take as many connection descriptors open at once, more than `int` descriptors
can name. -/
structure SThreadObj where
  pHead : Nat
  pollFd : Int
  numOfFds : Int
  threadId : Int
  shandle : Nat
deriving DecidableEq, Repr

/-- The contents of an `SThreadObj` after the `memset` in `taosInitTcpServer`. -/
def SThreadObj.zero : SThreadObj :=
  { pHead := 0, pollFd := 0, numOfFds := 0, threadId := 0, shandle := 0 }

/-- The record `SRecvInfo` handed to the callback.  `msg` is the payload the
pointer `recvInfo.msg` refers to (`none` for a null pointer); `connType` is
always `RPC_CONN_TCP` and is left out. -/
structure SRecvInfo where
  msg : Option (List Nat)
  msgLen : Int
  ip : Nat
  port : Nat
  shandle : Nat
  thandle : Nat
  chandle : Nat
deriving DecidableEq, Repr

/-- The heap of `SFdObj` blocks. -/
abbrev Mem := Nat → SFdObj

/-- The state the functions of `rpcServer.c` act on. -/
structure World where
  -- contents of the SFdObj blocks
  mem : Mem
  -- addresses of the SFdObj blocks handed out by malloc and not yet released
  allocated : List Nat
  -- the field pServerObj->numOfThreads
  numOfThreads : Nat
  -- the array pServerObj->pThreadObj
  threads : Nat → SThreadObj
  -- the local threadId of taosAcceptTcpConnection
  threadId : Nat
  -- the local sockFd of taosAcceptTcpConnection
  sockFd : Int
  -- the descriptors that are open in the process
  openFds : List Int
  -- the invocations of the upper-layer callback, oldest first
  calls : List SRecvInfo

/-- The state before `taosInitTcpServer`: no block allocated, no descriptor
open, no callback made. -/
def World.boot : World :=
  { mem := fun _ => SFdObj.zero, allocated := [], numOfThreads := 0,
    threads := fun _ => SThreadObj.zero, threadId := 0, sockFd := -1,
    openFds := [], calls := [] }

/-! ### Elementary assignments and state changes -/

/-- The assignment `pFdObj->next = v`. -/
def SFdObj.setNext (o : SFdObj) (v : Nat) : SFdObj :=
  { o with next := v }

/-- The assignment `pFdObj->prev = v`. -/
def SFdObj.setPrev (o : SFdObj) (v : Nat) : SFdObj :=
  { o with prev := v }

/-- The assignment `pFdObj->thandle = v`. -/
def SFdObj.setThandle (o : SFdObj) (v : Nat) : SFdObj :=
  { o with thandle := v }

/-- The assignment `pThreadObj->pHead = v`. -/
def SThreadObj.setPHead (o : SThreadObj) (v : Nat) : SThreadObj :=
  { o with pHead := v }

/-- The assignment `pThreadObj->pollFd = v`. -/
def SThreadObj.setPollFd (o : SThreadObj) (v : Int) : SThreadObj :=
  { o with pollFd := v }

/-- The assignment `pThreadObj->numOfFds = v`. -/
def SThreadObj.setNumOfFds (o : SThreadObj) (v : Int) : SThreadObj :=
  { o with numOfFds := v }

/-- The assignment `pThreadObj->threadId = v`. -/
def SThreadObj.setThreadId (o : SThreadObj) (v : Int) : SThreadObj :=
  { o with threadId := v }

/-- The assignment `pThreadObj->shandle = v`. -/
def SThreadObj.setShandle (o : SThreadObj) (v : Nat) : SThreadObj :=
  { o with shandle := v }

/-- Store a record at an address. -/
def Mem.set (m : Mem) (p : Nat) (v : SFdObj) : Mem :=
  fun q => if q = p then v else m q

/-- Write one `SFdObj` block. -/
def World.setMem (w : World) (p : Nat) (v : SFdObj) : World :=
  { w with mem := w.mem.set p v }

/-- Write one element of the worker array. -/
def World.setThread (w : World) (t : Nat) (v : SThreadObj) : World :=
  { w with threads := fun i => if i = t then v else w.threads i }

/-- The system call `close(fd)`. -/
def World.close (w : World) (fd : Int) : World :=
  { w with openFds := w.openFds.erase fd }

/-- A system call has returned the new descriptor `fd`. -/
def World.openFd (w : World) (fd : Int) : World :=
  { w with openFds := fd :: w.openFds }

/-- The allocator has handed out the block at `p`. -/
def World.alloc (w : World) (p : Nat) : World :=
  { w with allocated := p :: w.allocated }

/-- The library call `free(p)`. -/
def World.free (w : World) (p : Nat) : World :=
  { w with allocated := w.allocated.erase p }

/-- The callback `processData` is invoked with `info`. -/
def World.addCall (w : World) (info : SRecvInfo) : World :=
  { w with calls := w.calls ++ [info] }

/-- Assign the local `threadId` of the acceptor. -/
def World.setAcceptorId (w : World) (i : Nat) : World :=
  { w with threadId := i }

/-! ### Teardown: `taosCleanUpFdObj` and `taosCloseTcpServerConnection` -/

/-- The receive-info built at the end of `taosCleanUpFdObj`. -/
def terminalInfo (shandle thandle : Nat) : SRecvInfo :=
  { msg := none, msgLen := 0, ip := 0, port := 0,
    shandle := shandle, thandle := thandle, chandle := 0 }

/-- First half of the block "remove from the FdObject list" of
`taosCleanUpFdObj`: `if (pFdObj->prev) (pFdObj->prev)->next = pFdObj->next;
else pThreadObj->pHead = pFdObj->next;` where `t` is the worker
`pFdObj->pThreadObj` points to. -/
def unlinkPrev (w : World) (t pFdObj : Nat) : World :=
  if (w.mem pFdObj).prev ≠ 0 then
    w.setMem (w.mem pFdObj).prev ((w.mem (w.mem pFdObj).prev).setNext (w.mem pFdObj).next)
  else
    w.setThread t ((w.threads t).setPHead (w.mem pFdObj).next)

/-- Second half of the block:
`if (pFdObj->next) (pFdObj->next)->prev = pFdObj->prev;`. -/
def unlinkNext (w : World) (pFdObj : Nat) : World :=
  if (w.mem pFdObj).next ≠ 0 then
    w.setMem (w.mem pFdObj).next ((w.mem (w.mem pFdObj).next).setPrev (w.mem pFdObj).prev)
  else w

/-- The block "remove from the FdObject list" of `taosCleanUpFdObj`. -/
def removeFromList (w : World) (t pFdObj : Nat) : World :=
  unlinkNext (unlinkPrev w t pFdObj) pFdObj

/-- The end of `taosCleanUpFdObj`: the upper layer is notified when a handle
is stored, then the block is zeroed and released. -/
def notifyAndFree (w : World) (t pFdObj : Nat) : World :=
  let w1 :=
    if (w.mem pFdObj).thandle ≠ 0 then
      w.addCall (terminalInfo (w.threads t).shandle (w.mem pFdObj).thandle)
    else w
  -- memset(pFdObj, 0, sizeof(SFdObj)); tfree(pFdObj);
  (w1.setMem pFdObj SFdObj.zero).free pFdObj

/-- The function `taosCleanUpFdObj`. -/
def taosCleanUpFdObj (w : World) (pFdObj : Nat) : World :=
  if pFdObj = 0 then w
  else if (w.mem pFdObj).signature ≠ pFdObj then w
  else
    match (w.mem pFdObj).pThreadObj with
    | none => w
    | some t =>
      -- epoll_ctl(pollFd, EPOLL_CTL_DEL, fd, NULL); close(pFdObj->fd);
      let w1 := w.close (w.mem pFdObj).fd
      -- pThreadObj->numOfFds--;
      let w2 := w1.setThread t
        ((w1.threads t).setNumOfFds ((w1.threads t).numOfFds - 1))
      notifyAndFree (removeFromList w2 t pFdObj) t pFdObj

/-- The function `taosCloseTcpServerConnection`. -/
def taosCloseTcpServerConnection (w : World) (chandle : Nat) : World :=
  if chandle = 0 then w else taosCleanUpFdObj w chandle

/-! ### Acceptor: `taosAcceptTcpConnection` -/

/-- The macro `htons` on a 16-bit value, on a little-endian host: the two
bytes exchanged. -/
def htons (x : Nat) : Nat := (x % 256) * 256 + (x / 256) % 256

/-- What the environment answers during one iteration of the acceptor loop:
the result of `accept`, the peer address it filled in, the result of
`malloc(sizeof(SFdObj))` (`0` for `NULL`) and the result of `epoll_ctl`. -/
structure AcceptIn where
  connFd : Int
  sinAddr : Nat
  sinPort : Nat
  mallocRet : Nat
  epollCtlRet : Int
deriving DecidableEq, Repr

/-- The record written by `taosAcceptTcpConnection` into a fresh block: the
`memset` to zero and the assignments behind it. -/
def newFdObj (a : AcceptIn) (t p : Nat) : SFdObj :=
  { signature := p, fd := a.connFd, thandle := 0, ip := a.sinAddr,
    port := htons a.sinPort, pThreadObj := some t, prev := 0, next := 0 }

/-- The block "add into the FdObj list" of `taosAcceptTcpConnection`, for the
record at `p` and the worker `t` picked for it. -/
def pushFdObj (w : World) (t p : Nat) : World :=
  -- pFdObj->next = pThreadObj->pHead;
  let w1 := w.setMem p ((w.mem p).setNext (w.threads t).pHead)
  -- if (pThreadObj->pHead) (pThreadObj->pHead)->prev = pFdObj;
  let w2 :=
    if (w1.threads t).pHead ≠ 0 then
      w1.setMem (w1.threads t).pHead ((w1.mem (w1.threads t).pHead).setPrev p)
    else w1
  -- pThreadObj->pHead = pFdObj; pThreadObj->numOfFds++;
  let w3 := w2.setThread t ((w2.threads t).setPHead p)
  w3.setThread t ((w3.threads t).setNumOfFds ((w3.threads t).numOfFds + 1))

/-- One iteration of the `while (1)` loop of `taosAcceptTcpConnection`. -/
def acceptLoopBody (w : World) (a : AcceptIn) : World :=
  if a.connFd < 0 then w
  else
    let w1 := w.openFd a.connFd
    -- pThreadObj = pServerObj->pThreadObj + threadId;
    let t := w1.threadId
    if a.mallocRet = 0 then w1.close a.connFd
    else
      let p := a.mallocRet
      let w2 := (w1.alloc p).setMem p (newFdObj a t p)
      if a.epollCtlRet < 0 then
        -- tfree(pFdObj); close(connFd);
        (w2.free p).close a.connFd
      else
        let w3 := pushFdObj w2 t p
        -- pick up next thread for next connection
        w3.setAcceptorId ((w3.threadId + 1) % w3.numOfThreads)

/-- The acceptor loop run over the answers of the environment, one per
iteration. -/
def taosAcceptTcpConnection (w : World) (as : List AcceptIn) : World :=
  as.foldl acceptLoopBody w

/-! ### Worker: the event handler of `taosProcessTcpData` -/

/-- Reinterpret an unsigned 32-bit value as `int32_t`. -/
def toInt32 (u : Nat) : Int :=
  if u % 2 ^ 32 < 2 ^ 31 then ((u % 2 ^ 32 : Nat) : Int)
  else ((u % 2 ^ 32 : Nat) : Int) - 2 ^ 32

/-- Bring an integer into the range of `int32_t` (two's complement). -/
def wrap32 (x : Int) : Int := toInt32 (x % 2 ^ 32).toNat

/-- The field `msgLen` of a header as an unsigned number, its four bytes taken
most significant first (network byte order). -/
def beMsgLen (L : Layout) (rpcHead : List Nat) : Nat :=
  ((rpcHead.getD L.msgLenOff 0 * 256 + rpcHead.getD (L.msgLenOff + 1) 0) * 256
    + rpcHead.getD (L.msgLenOff + 2) 0) * 256 + rpcHead.getD (L.msgLenOff + 3) 0

/-- The expression `(int32_t)htonl((uint32_t)rpcHead.msgLen)`.  The field holds
the four bytes as they came off the wire; `htonl` exchanges them on a
little-endian host and leaves them alone on a big-endian one, so on either the
value is the big-endian reading of the bytes, taken as a signed 32-bit
number. -/
def decodeMsgLen (L : Layout) (rpcHead : List Nat) : Int :=
  toInt32 (beMsgLen L rpcHead)

/-- What `taosReadMsg` answers: the count it returns and the bytes it stored. -/
structure ReadRet where
  count : Int
  data : List Nat
deriving DecidableEq, Repr

/-- One element of the array filled by `epoll_wait`. -/
structure EpollEvent where
  ptr : Nat
  epollerr : Bool
  epollhup : Bool
deriving DecidableEq, Repr

/-- What the environment answers while one readable event is handled: the
header read, whether `malloc` of the message buffer succeeded, the body read,
and the value returned by the callback. -/
structure FrameIn where
  headRead : ReadRet
  mallocOk : Bool
  bodyRead : ReadRet
  cbRet : Nat
deriving DecidableEq, Repr

/-- The receive-info built for a frame. -/
def frameInfo (w : World) (t pFdObj : Nat) (msg : List Nat) (msgLen : Int) : SRecvInfo :=
  { msg := some msg, msgLen := msgLen,
    ip := (w.mem pFdObj).ip, port := (w.mem pFdObj).port,
    shandle := (w.threads t).shandle, thandle := (w.mem pFdObj).thandle,
    chandle := pFdObj }

/-- The body of the `for` loop of `taosProcessTcpData`, run by worker `t` for
one event.  The buffer `malloc(msgLen + tsRpcOverhead)` itself is not kept in
the state: `x.mallocOk` tells whether the call returned a block, and the
payload `msg = buffer + tsRpcOverhead` is carried as the list of its bytes. -/
def processEvent (L : Layout) (w : World) (t : Nat) (ev : EpollEvent) (x : FrameIn) : World :=
  let pFdObj := ev.ptr
  if ev.epollerr then taosCleanUpFdObj w pFdObj
  else if ev.epollhup then taosCleanUpFdObj w pFdObj
  else
    let headLen : Int := x.headRead.count
    if headLen ≠ (L.headSize : Int) then taosCleanUpFdObj w pFdObj
    else
      let rpcHead := x.headRead.data
      let msgLen := decodeMsgLen L rpcHead
      -- char *buffer = malloc(msgLen + tsRpcOverhead); if (NULL == buffer) ...
      if x.mallocOk = false then taosCleanUpFdObj w pFdObj
      else
        let leftLen := wrap32 (msgLen - headLen)
        let retLen := x.bodyRead.count
        -- taosCleanUpFdObj(pFdObj); tfree(buffer);
        if leftLen ≠ retLen then taosCleanUpFdObj w pFdObj
        else
          -- memcpy(msg, &rpcHead, sizeof(SRpcHead)); the body was read behind it
          let msg := rpcHead ++ x.bodyRead.data
          let info := frameInfo w t pFdObj msg msgLen
          let w1 := w.addCall info
          let w2 := w1.setMem pFdObj ((w1.mem pFdObj).setThandle x.cbRet)
          if (w2.mem pFdObj).thandle = 0 then taosCleanUpFdObj w2 pFdObj else w2

/-- Worker `t` handling a sequence of events. -/
def taosProcessTcpData (L : Layout) (w : World) (t : Nat)
    (evs : List (EpollEvent × FrameIn)) : World :=
  evs.foldl (fun w e => processEvent L w t e.1 e.2) w

/-! ### Start and stop: `taosInitTcpServer` and `taosCleanUpTcpServer` -/

/-- What the environment answers while `taosInitTcpServer` sets up one worker. -/
structure ThreadInitIn where
  mutexInitRet : Int
  condInitRet : Int
  epollCreateRet : Int
  threadCreateRet : Int
deriving DecidableEq, Repr

/-- What the environment answers during `taosInitTcpServer`: whether the
worker array could be allocated, the answers per worker, and the result of
`pthread_create` for the acceptor. -/
structure InitIn where
  poolAllocOk : Bool
  perThread : Nat → ThreadInitIn
  acceptCreateRet : Int

/-- The `for` loop of `taosInitTcpServer`, from index `i` on with `n` workers
still to set up; `none` is `return NULL`. -/
def initWorkers (shandle : Nat) (x : Nat → ThreadInitIn) : Nat → Nat → World → Option World
  | 0, _, w => some w
  | n + 1, i, w =>
    let w1 := w.setThread i ((w.threads i).setShandle shandle)
    if (x i).mutexInitRet < 0 then none
    else if (x i).condInitRet ≠ 0 then none
    else
      let w2 := w1.setThread i ((w1.threads i).setPollFd (x i).epollCreateRet)
      if (w2.threads i).pollFd < 0 then none
      else
        let w3 := w2.openFd (x i).epollCreateRet
        if (x i).threadCreateRet ≠ 0 then none
        else
          let w4 := w3.setThread i ((w3.threads i).setThreadId (i : Int))
          initWorkers shandle x n (i + 1) w4

/-- The function `taosInitTcpServer`; `none` is `return NULL`. -/
def taosInitTcpServer (numOfThreads : Nat) (shandle : Nat) (x : InitIn) : Option World :=
  let w0 := { World.boot with numOfThreads := numOfThreads }
  if x.poolAllocOk = false then none
  else
    -- memset(pServerObj->pThreadObj, 0, ...)
    let w1 := { w0 with threads := fun _ => SThreadObj.zero }
    match initWorkers shandle x.perThread numOfThreads 0 w1 with
    | none => none
    | some w2 => if x.acceptCreateRet ≠ 0 then none else some w2

/-- The start of `taosAcceptTcpConnection`, up to the loop: the listening
socket is opened (`sockRet` is what `taosOpenTcpServerSocket` returns); `none`
is the early `return`. -/
def acceptorOpen (w : World) (sockRet : Int) : Option World :=
  if sockRet < 0 then none
  else some (World.openFd { w with sockFd := sockRet, threadId := 0 } sockRet)

/-- The loop `while (pThreadObj->pHead) { taosCleanUpFdObj(pThreadObj->pHead);
pThreadObj->pHead = pThreadObj->pHead; }` of `taosCleanUpTcpServer` for worker
`i`, with a bound on the number of iterations; `none` when the bound is
reached.  The result carries the pointers handed to `taosCleanUpFdObj`, in
order. -/
def drainLoop : Nat → World → Nat → Option (World × List Nat)
  | fuel, w, i =>
    if (w.threads i).pHead = 0 then some (w, [])
    else
      match fuel with
      | 0 => none
      | f + 1 =>
        let h := (w.threads i).pHead
        let w1 := taosCleanUpFdObj w h
        let w2 := w1.setThread i ((w1.threads i).setPHead (w1.threads i).pHead)
        match drainLoop f w2 i with
        | none => none
        | some (w3, l) => some (w3, h :: l)

/-- The `for` loop of `taosCleanUpTcpServer`, from worker `i` on with `n`
workers still to clean up. -/
def cleanUpWorkers (fuel : Nat) : Nat → Nat → World → Option World
  | 0, _, w => some w
  | n + 1, i, w =>
    match drainLoop fuel w i with
    | none => none
    | some (w1, _) =>
      let w2 := w1.close (w1.threads i).pollFd
      cleanUpWorkers fuel n (i + 1) w2

/-- The function `taosCleanUpTcpServer` (for a non-null handle): the acceptor
thread is cancelled and joined, then every worker is cleaned up. -/
def taosCleanUpTcpServer (fuel : Nat) (w : World) : Option World :=
  cleanUpWorkers fuel w.numOfThreads 0 w

/-- The descriptors left open when `taosCleanUpTcpServer` returns. -/
def openAfterStop (fuel : Nat) (w : World) : Option (List Int) :=
  (taosCleanUpTcpServer fuel w).map (fun w2 => w2.openFds)

/-! ### Runs -/

/-- An admission by the acceptor or a call of `taosCleanUpFdObj`. -/
inductive RegEvent where
  | admission (a : AcceptIn)
  | teardown (p : Nat)
deriving DecidableEq, Repr

/-- The effect of one event. -/
def regStep (w : World) : RegEvent → World
  | .admission a => acceptLoopBody w a
  | .teardown p => taosCleanUpFdObj w p

/-- The state after a sequence of events. -/
def regRun (w : World) (es : List RegEvent) : World :=
  es.foldl regStep w

/-- One step of the server: an iteration of the acceptor loop, the handling of
one event by worker `t`, or a call of `taosCloseTcpServerConnection`. -/
inductive SrvEvent where
  | accept (a : AcceptIn)
  | event (t : Nat) (ev : EpollEvent) (x : FrameIn)
  | close (chandle : Nat)
deriving DecidableEq, Repr

/-- The effect of one step. -/
def srvStep (L : Layout) (w : World) : SrvEvent → World
  | .accept a => acceptLoopBody w a
  | .event t ev x => processEvent L w t ev x
  | .close c => taosCloseTcpServerConnection w c

/-- The state after a sequence of steps. -/
def srvRun (L : Layout) (w : World) (es : List SrvEvent) : World :=
  es.foldl (srvStep L) w

/-! ### The connection registry -/

/-- `DList mem h pv l` states that the records reachable from `h` through
`next`, up to the null pointer, are the addresses `l` in this order, that none
of them is null, and that the `prev` pointers run backwards along the same
chain, the one of the first record being `pv`. -/
def DList (mem : Mem) : Nat → Nat → List Nat → Prop
  | h, _, [] => h = 0
  | h, pv, p :: l => h = p ∧ p ≠ 0 ∧ (mem p).prev = pv ∧ DList mem (mem p).next p l

/-- `DList` can be checked by walking the list. -/
def DList.dec (mem : Mem) : (h pv : Nat) → (l : List Nat) → Decidable (DList mem h pv l)
  | h, _, [] => inferInstanceAs (Decidable (h = 0))
  | h, pv, p :: l =>
    have := DList.dec mem (mem p).next p l
    inferInstanceAs (Decidable (h = p ∧ p ≠ 0 ∧ (mem p).prev = pv ∧ DList mem (mem p).next p l))

instance (mem : Mem) (h pv : Nat) (l : List Nat) : Decidable (DList mem h pv l) :=
  DList.dec mem h pv l

/-- `Reach mem h l` states that following `next` from `h` one meets the records
`l`, in this order, and then the null pointer: `l` is the list reachable from
`h`. -/
def Reach (mem : Mem) : Nat → List Nat → Prop
  | h, [] => h = 0
  | h, p :: l => h = p ∧ p ≠ 0 ∧ Reach mem (mem p).next l

/-- `Reach` can be checked by walking the list. -/
def Reach.dec (mem : Mem) : (h : Nat) → (l : List Nat) → Decidable (Reach mem h l)
  | h, [] => inferInstanceAs (Decidable (h = 0))
  | h, p :: l =>
    have := Reach.dec mem (mem p).next l
    inferInstanceAs (Decidable (h = p ∧ p ≠ 0 ∧ Reach mem (mem p).next l))

instance (mem : Mem) (h : Nat) (l : List Nat) : Decidable (Reach mem h l) :=
  Reach.dec mem h l

/-- The list of worker `i` is `l`: the chain from `pHead` is `l` without
repetition, `numOfFds` is its length, and every record on it carries its own
address as signature, points to worker `i` and lies in an allocated block. -/
structure WorkerOK (w : World) (i : Nat) (l : List Nat) : Prop where
  chain : DList w.mem (w.threads i).pHead 0 l
  nodup : l.Nodup
  count : (w.threads i).numOfFds = (l.length : Int)
  owned : ∀ p ∈ l, (w.mem p).signature = p ∧ (w.mem p).pThreadObj = some i ∧ p ∈ w.allocated

/-- The registry is consistent: the list of every worker is as `ls` says. -/
def Inv (w : World) (ls : Nat → List Nat) : Prop :=
  ∀ i, i < w.numOfThreads → WorkerOK w i (ls i)

/-- The guards of `taosCleanUpFdObj` pass for `p`, whose record points to
worker `t`. -/
structure Live (w : World) (p t : Nat) : Prop where
  ne_null : p ≠ 0
  sig : (w.mem p).signature = p
  owner : (w.mem p).pThreadObj = some t

/-- A server whose workers were just initialised: every list is empty, every
count is zero, no block carries a signature, and the acceptor is about to
serve worker 0. -/
structure Fresh (w : World) : Prop where
  workers : 0 < w.numOfThreads
  heads : ∀ i, i < w.numOfThreads → (w.threads i).pHead = 0 ∧ (w.threads i).numOfFds = 0
  noRecord : ∀ p, (w.mem p).signature = 0
  threadId : w.threadId = 0

/-- The lists after the record `p` has been pushed to worker `t`. -/
def consAt (ls : Nat → List Nat) (t p : Nat) : Nat → List Nat :=
  fun j => if j = t then p :: ls t else ls j

/-- The fields of a record that are not list links. -/
def SFdObj.core (o : SFdObj) : Nat × Int × Nat × Nat × Nat × Option Nat :=
  (o.signature, o.fd, o.thandle, o.ip, o.port, o.pThreadObj)

/-- The state in which `taosCleanUpFdObj` enters the unlinking block. -/
def beforeUnlink (w : World) (p t : Nat) : World :=
  (w.close (w.mem p).fd).setThread t
    (((w.close (w.mem p).fd).threads t).setNumOfFds (((w.close (w.mem p).fd).threads t).numOfFds - 1))

/-- The state in which an admitted connection reaches the list push. -/
def beforePush (w : World) (a : AcceptIn) : World :=
  ((w.openFd a.connFd).alloc a.mallocRet).setMem a.mallocRet
    (newFdObj a w.threadId a.mallocRet)

/-! ### What the environment may answer -/

/-- The answers of the environment make the iteration reach the list push. -/
def AcceptIn.admitted (a : AcceptIn) : Prop :=
  0 ≤ a.connFd ∧ a.mallocRet ≠ 0 ∧ 0 ≤ a.epollCtlRet

instance (a : AcceptIn) : Decidable a.admitted := by
  unfold AcceptIn.admitted; infer_instance

/-- What `malloc` may answer: a block that is not in use. -/
def mallocFresh (w : World) (a : AcceptIn) : Prop :=
  0 ≤ a.connFd → a.mallocRet ≠ 0 → a.mallocRet ∉ w.allocated

instance (w : World) (a : AcceptIn) : Decidable (mallocFresh w a) := by
  unfold mallocFresh; infer_instance

/-- What the environment may answer at an event: an admission reaches the
list push with a block that is not in use; a teardown may be asked for any
pointer. -/
def regOk (w : World) : RegEvent → Prop
  | .admission a => a.admitted ∧ a.mallocRet ∉ w.allocated
  | .teardown _ => True

instance (w : World) (e : RegEvent) : Decidable (regOk w e) := by
  cases e <;> unfold regOk <;> infer_instance

/-- Every event of the run is answered as `regOk` allows. -/
def RegValid : World → List RegEvent → Prop
  | _, [] => True
  | w, e :: es => regOk w e ∧ RegValid (regStep w e) es

/-- `RegValid` can be checked along the run. -/
def RegValid.dec : (w : World) → (es : List RegEvent) → Decidable (RegValid w es)
  | _, [] => isTrue trivial
  | w, e :: es =>
    have := RegValid.dec (regStep w e) es
    inferInstanceAs (Decidable (regOk w e ∧ RegValid (regStep w e) es))

instance (w : World) (es : List RegEvent) : Decidable (RegValid w es) := RegValid.dec w es

/-- The acceptor is answered as the allocator allows at every iteration. -/
def ValidAccepts : World → List AcceptIn → Prop
  | _, [] => True
  | w, a :: as => mallocFresh w a ∧ ValidAccepts (acceptLoopBody w a) as

/-- `ValidAccepts` can be checked along the run. -/
def ValidAccepts.dec : (w : World) → (as : List AcceptIn) → Decidable (ValidAccepts w as)
  | _, [] => isTrue trivial
  | w, a :: as =>
    have := ValidAccepts.dec (acceptLoopBody w a) as
    inferInstanceAs (Decidable (mallocFresh w a ∧ ValidAccepts (acceptLoopBody w a) as))

instance (w : World) (as : List AcceptIn) : Decidable (ValidAccepts w as) :=
  ValidAccepts.dec w as

/-- The argument of `malloc(msgLen + tsRpcOverhead)` in the event handler: the
sum of two `int` values, taken in 32 bits. -/
def mallocArg (L : Layout) (rpcHead : List Nat) : Int :=
  wrap32 (decodeMsgLen L rpcHead + L.tsRpcOverhead)

/-- What `malloc` may answer in the event handler.  The argument is converted
to `size_t`; with a 64-bit `size_t` a negative `int` becomes a size of at least
`2^64 - 2^31` bytes, which no allocator grants: the answer is `NULL`. -/
def FrameIn.mallocSound (L : Layout) (x : FrameIn) : Prop :=
  mallocArg L x.headRead.data < 0 → x.mallocOk = false

instance (L : Layout) (x : FrameIn) : Decidable (x.mallocSound L) := by
  unfold FrameIn.mallocSound; infer_instance

/-- The reserved prelude is a size: `tsRpcOverhead` is not negative, and
prelude and header together are within the range of `int`. -/
def Layout.sane (L : Layout) : Prop :=
  0 ≤ L.tsRpcOverhead ∧ (L.headSize : Int) + L.tsRpcOverhead ≤ 2 ^ 31

instance (L : Layout) : Decidable L.sane := by
  unfold Layout.sane; infer_instance

/-! ### Teardown and terminal callbacks, as the theorems state them -/

/-- The terminal callback owed to a record: one call with a null payload,
length 0 and the stored handle when a handle is stored, none otherwise. -/
def terminalFor (sh : Nat) (o : SFdObj) : List SRecvInfo :=
  if o.thandle ≠ 0 then [terminalInfo sh o.thandle] else []

/-- The terminal callbacks owed to the records `l` of a worker whose shared
handle is `sh`: one for each record that stores a handle, in list order. -/
def terminalCalls (mem : Mem) (sh : Nat) (l : List Nat) : List SRecvInfo :=
  (l.filter (fun p => (mem p).thandle ≠ 0)).map (fun p => terminalInfo sh (mem p).thandle)

/-- `TornDown w w2 i l p`: going from `w` to `w2`, the record `p` of worker
`i`, whose list was `l`, has been torn down: it is off the list, the count is
one less, its block is zeroed and released, its descriptor is closed, and the
only callback made is the terminal one owed to it. -/
structure TornDown (w w2 : World) (i : Nat) (l : List Nat) (p : Nat) : Prop where
  unlinked : WorkerOK w2 i (l.erase p)
  count : (w2.threads i).numOfFds = (w.threads i).numOfFds - 1
  zeroed : w2.mem p = SFdObj.zero
  released : w2.allocated = w.allocated.erase p
  closed : w2.openFds = w.openFds.erase (w.mem p).fd
  calls : w2.calls = w.calls ++ terminalFor (w.threads i).shandle (w.mem p)

/-! ### Frames -/

/-- The value `leftLen` the event handler computes from a header. -/
def leftLenOf (L : Layout) (rpcHead : List Nat) : Int :=
  wrap32 (decodeMsgLen L rpcHead - (L.headSize : Int))

/-- A readable event (no error, no hang-up) for the record `p`. -/
def readable (p : Nat) : EpollEvent :=
  { ptr := p, epollerr := false, epollhup := false }

/-- The handler reaches the callback: the header read is complete, the buffer
is allocated, and the body read returns the count asked for. -/
def FrameIn.complete (L : Layout) (x : FrameIn) : Prop :=
  x.headRead.count = (L.headSize : Int) ∧ x.mallocOk = true ∧
    x.bodyRead.count = leftLenOf L x.headRead.data

instance (L : Layout) (x : FrameIn) : Decidable (x.complete L) := by
  unfold FrameIn.complete; infer_instance

/-- The events of worker `t` for the frames `xs` of the record at `p`. -/
def frameEvents (p : Nat) (xs : List FrameIn) : List (EpollEvent × FrameIn) :=
  xs.map (fun x => (readable p, x))

/-- The state after worker `t` has handled the frames `xs` of the record at
`p`. -/
def afterFrames (L : Layout) (w : World) (t p : Nat) (xs : List FrameIn) : World :=
  taosProcessTcpData L w t (frameEvents p xs)

/-- The receive-infos of the callbacks for the completed frames `xs` of a
record at `p` with address `ip`, `port`, served by a worker with shared handle
`sh`, when the record stores the handle `h` before the first of them: every
call carries the handle returned by the call before it. -/
def frameCalls (L : Layout) (sh ip port p : Nat) : Nat → List FrameIn → List SRecvInfo
  | _, [] => []
  | h, x :: xs =>
    { msg := some (x.headRead.data ++ x.bodyRead.data),
      msgLen := decodeMsgLen L x.headRead.data,
      ip := ip, port := port, shandle := sh, thandle := h, chandle := p }
      :: frameCalls L sh ip port p x.cbRet xs

/-- The handle stored after the frames `xs`: the value returned by the last
callback, or the handle stored before when there is no frame. -/
def lastHandle : Nat → List FrameIn → Nat
  | h, [] => h
  | _, x :: xs => lastHandle x.cbRet xs

/-- A frame as the peer writes it: the bytes of the header, then the bytes of
the body. -/
structure Frame where
  header : List Nat
  body : List Nat
deriving DecidableEq, Repr

/-- The total length a well-formed frame declares. -/
def Frame.msgLen (L : Layout) (f : Frame) : Int := ((L.headSize + f.body.length : Nat) : Int)

/-- A well-formed frame: the header has the header size, its field `msgLen`
(big-endian) is the header size plus the length of the body, and this total is
below `2^31`. -/
def Frame.wellFormed (L : Layout) (f : Frame) : Prop :=
  f.header.length = L.headSize ∧ beMsgLen L f.header = L.headSize + f.body.length ∧
    L.headSize + f.body.length < 2 ^ 31

instance (L : Layout) (f : Frame) : Decidable (f.wellFormed L) := by
  unfold Frame.wellFormed; infer_instance

/-- What the handler is answered when it reads the frame `f` and the read
helper returns every byte asked for: the header read returns the header, the
body read returns the body; `mallocOk` tells whether the message buffer could
be allocated and `r` is what the callback returns. -/
def Frame.readIn (L : Layout) (f : Frame) (mallocOk : Bool) (r : Nat) : FrameIn :=
  { headRead := { count := (L.headSize : Int), data := f.header }, mallocOk := mallocOk,
    bodyRead := { count := (f.body.length : Int), data := f.body }, cbRet := r }

/-! ### Round-robin assignment -/

/-- The records of the connections that reached the list push, in the order of
their admission. -/
def admittedPtrs (as : List AcceptIn) : List Nat :=
  (as.filter (fun a => a.admitted)).map (fun a => a.mallocRet)

/-- The descriptors of the connections that reached the list push, in the
order of their admission. -/
def admittedFds (as : List AcceptIn) : List Int :=
  (as.filter (fun a => a.admitted)).map (fun a => a.connFd)

/-- The list worker `i` of `N` is to hold, head first, when the records `ptrs`
are admitted as numbers `k`, `k + 1`, ... and number `j` goes to worker
`j mod N`: a later record stands in front of an earlier one. -/
def assignedFrom (N i : Nat) : Nat → List Nat → List Nat
  | _, [] => []
  | k, p :: ps =>
    if k % N = i then assignedFrom N i (k + 1) ps ++ [p] else assignedFrom N i (k + 1) ps

/-! ### One connection within a run of the server -/

/-- The frame read on the record at `p` in a step, if the step is an event for
that record. -/
def SrvEvent.frameOn (p : Nat) : SrvEvent → Option FrameIn
  | .event _ ev x => if ev.ptr = p then some x else none
  | _ => none

/-- The frames read on the record at `p` during a run, in order. -/
def framesOn (p : Nat) (es : List SrvEvent) : List FrameIn :=
  es.filterMap (SrvEvent.frameOn p)

/-- The step leaves the connection at `p` in service: the allocator hands out
only blocks that are not in use; an event for `p` arrives at the worker that
owns `p`, is a readable event, completes a frame, and its callback returns a
handle; `p` is not closed. -/
def keeps (L : Layout) (p : Nat) (w : World) : SrvEvent → Prop
  | .accept a => mallocFresh w a
  | .event t ev x =>
    ev.ptr = p → (ev = readable p ∧ (w.mem p).pThreadObj = some t ∧ x.complete L ∧ x.cbRet ≠ 0)
  | .close c => c ≠ p

instance (L : Layout) (p : Nat) (w : World) (e : SrvEvent) : Decidable (keeps L p w e) := by
  cases e <;> unfold keeps <;> infer_instance

/-- Every step of the run leaves the connection at `p` in service. -/
def Keeps (L : Layout) (p : Nat) : World → List SrvEvent → Prop
  | _, [] => True
  | w, e :: es => keeps L p w e ∧ Keeps L p (srvStep L w e) es

/-- `Keeps` can be checked along the run. -/
def Keeps.dec (L : Layout) (p : Nat) : (w : World) → (es : List SrvEvent) →
    Decidable (Keeps L p w es)
  | _, [] => isTrue trivial
  | w, e :: es =>
    have := Keeps.dec L p (srvStep L w e) es
    inferInstanceAs (Decidable (keeps L p w e ∧ Keeps L p (srvStep L w e) es))

instance (L : Layout) (p : Nat) (w : World) (es : List SrvEvent) : Decidable (Keeps L p w es) :=
  Keeps.dec L p w es

/-- `Quiet p w w2`: going from `w` to `w2` no callback was made for the record
at `p`, its fields other than the list links are as before, its block stays
allocated, and every worker keeps its shared handle. -/
structure Quiet (p : Nat) (w w2 : World) : Prop where
  calls : ∃ cs, w2.calls = w.calls ++ cs ∧ ∀ c ∈ cs, c.chandle ≠ p
  core : (w2.mem p).core = (w.mem p).core
  alloc : p ∈ w.allocated → p ∈ w2.allocated
  shandle : ∀ j, (w2.threads j).shandle = (w.threads j).shandle

/-- `Static w w2`: going from `w` to `w2` the number of workers and the shared
handle of every worker are as before, and the acceptor still points to one of
the workers if it did. -/
structure Static (w w2 : World) : Prop where
  workers : w2.numOfThreads = w.numOfThreads
  shandle : ∀ j, (w2.threads j).shandle = (w.threads j).shandle
  threadId : w.threadId < w.numOfThreads → w2.threadId < w2.numOfThreads

/-! ### Sample states and inputs -/

/-- A sample layout: headers of 8 bytes that start with `msgLen`. -/
def sampleLayout : Layout := { headSize := 8, msgLenOff := 0, tsRpcOverhead := 16 }

/-- Answers of the environment with which `taosInitTcpServer` succeeds; worker
`i` gets the epoll descriptor `3 + i`. -/
def initOk : InitIn :=
  { poolAllocOk := true,
    perThread := fun i =>
      { mutexInitRet := 0, condInitRet := 0, epollCreateRet := 3 + (i : Int),
        threadCreateRet := 0 },
    acceptCreateRet := 0 }

/-- A server with `n` workers and shared handle `77` right after a successful
start (`World.boot` stands in for the case, which does not arise, that the
start fails). -/
def started (n : Nat) : World :=
  match taosInitTcpServer n 77 initOk with
  | some w => w
  | none => World.boot

/-- A server with `n` workers whose acceptor has opened the listening socket
`sock` (`World.boot` stands in for the case, which does not arise for
`0 ≤ sock`, that the acceptor returns early). -/
def listening (n : Nat) (sock : Int) : World :=
  match acceptorOpen (started n) sock with
  | some w => w
  | none => World.boot

/-- An iteration of the acceptor in which `accept` returns `fd`, `malloc`
returns `p` and `epoll_ctl` succeeds. -/
def admitIn (fd : Int) (p : Nat) : AcceptIn :=
  { connFd := fd, sinAddr := 16777343, sinPort := 20480, mallocRet := p, epollCtlRet := 0 }

/-- An iteration of the acceptor in which `accept` returns `fd` and the record
allocation fails. -/
def allocFailIn (fd : Int) : AcceptIn :=
  { connFd := fd, sinAddr := 16777343, sinPort := 20480, mallocRet := 0, epollCtlRet := 0 }

/-- Two workers after three admissions: the records at 100 and 300 are with
worker 0, the record at 200 is with worker 1. -/
def threeConns : World :=
  regRun (started 2) [.admission (admitIn 10 100), .admission (admitIn 11 200), .admission (admitIn 12 300)]

/-- A peer that closes after four bytes of a header. -/
def halfHeader : FrameIn :=
  { headRead := { count := 4, data := [0, 0, 0, 12] }, mallocOk := true,
    bodyRead := { count := 0, data := [] }, cbRet := 5 }

/-- A header that declares `msgLen = 4`, less than the header size 8; the body
read is asked for `-4` bytes and returns 0. -/
def tinyLength : FrameIn :=
  { headRead := { count := 8, data := [0, 0, 0, 4, 0, 0, 0, 0] }, mallocOk := true,
    bodyRead := { count := 0, data := [] }, cbRet := 5 }

/-- A header that declares `msgLen = -2^31` (bytes `80 00 00 00`); `malloc` is
asked for `-2^31 + 16` bytes and returns `NULL`. -/
def refusedLength : FrameIn :=
  { headRead := { count := 8, data := [128, 0, 0, 0, 0, 0, 0, 0] }, mallocOk := false,
    bodyRead := { count := 0, data := [] }, cbRet := 5 }

/-- The same header with an allocator that hands out a block all the same:
`leftLen` wraps around to `2^31 - 8`, and the peer sends that many body
bytes. -/
def wrappedLength : FrameIn :=
  { headRead := { count := 8, data := [128, 0, 0, 0, 0, 0, 0, 0] }, mallocOk := true,
    bodyRead := { count := 2147483640, data := List.replicate 2147483640 0 }, cbRet := 5 }

/-- The frame `"A"` behind an 8-byte header that declares 9 bytes. -/
def frameA : Frame := { header := [0, 0, 0, 9, 0, 0, 0, 0], body := [65] }

/-- The frame `"BB"` behind an 8-byte header that declares 10 bytes. -/
def frameBB : Frame := { header := [0, 0, 0, 10, 0, 0, 0, 0], body := [66, 66] }

/-- The steps of a sample run after the admission of the record at 200 to
worker 1: a frame on another connection, a frame on this one, an admission and
the close of the other connection. -/
def sampleSteps : List SrvEvent :=
  [.event 0 (readable 100) (frameBB.readIn sampleLayout true 9),
   .event 1 (readable 200) (frameA.readIn sampleLayout true 7),
   .accept (admitIn 12 300),
   .close 100]

/-! ## Theorems -/

/-! ### Projections of the elementary assignments -/

section FieldLemmas

@[simp] theorem SFdObj.setNext_signature (o : SFdObj) (v : Nat) :
    (o.setNext v).signature = o.signature := rfl
@[simp] theorem SFdObj.setNext_fd (o : SFdObj) (v : Nat) :
    (o.setNext v).fd = o.fd := rfl
@[simp] theorem SFdObj.setNext_thandle (o : SFdObj) (v : Nat) :
    (o.setNext v).thandle = o.thandle := rfl
@[simp] theorem SFdObj.setNext_ip (o : SFdObj) (v : Nat) :
    (o.setNext v).ip = o.ip := rfl
@[simp] theorem SFdObj.setNext_port (o : SFdObj) (v : Nat) :
    (o.setNext v).port = o.port := rfl
@[simp] theorem SFdObj.setNext_pThreadObj (o : SFdObj) (v : Nat) :
    (o.setNext v).pThreadObj = o.pThreadObj := rfl
@[simp] theorem SFdObj.setNext_prev (o : SFdObj) (v : Nat) :
    (o.setNext v).prev = o.prev := rfl
@[simp] theorem SFdObj.setNext_next (o : SFdObj) (v : Nat) :
    (o.setNext v).next = v := rfl

@[simp] theorem SFdObj.setPrev_signature (o : SFdObj) (v : Nat) :
    (o.setPrev v).signature = o.signature := rfl
@[simp] theorem SFdObj.setPrev_fd (o : SFdObj) (v : Nat) :
    (o.setPrev v).fd = o.fd := rfl
@[simp] theorem SFdObj.setPrev_thandle (o : SFdObj) (v : Nat) :
    (o.setPrev v).thandle = o.thandle := rfl
@[simp] theorem SFdObj.setPrev_ip (o : SFdObj) (v : Nat) :
    (o.setPrev v).ip = o.ip := rfl
@[simp] theorem SFdObj.setPrev_port (o : SFdObj) (v : Nat) :
    (o.setPrev v).port = o.port := rfl
@[simp] theorem SFdObj.setPrev_pThreadObj (o : SFdObj) (v : Nat) :
    (o.setPrev v).pThreadObj = o.pThreadObj := rfl
@[simp] theorem SFdObj.setPrev_prev (o : SFdObj) (v : Nat) :
    (o.setPrev v).prev = v := rfl
@[simp] theorem SFdObj.setPrev_next (o : SFdObj) (v : Nat) :
    (o.setPrev v).next = o.next := rfl

@[simp] theorem SFdObj.setThandle_signature (o : SFdObj) (v : Nat) :
    (o.setThandle v).signature = o.signature := rfl
@[simp] theorem SFdObj.setThandle_fd (o : SFdObj) (v : Nat) :
    (o.setThandle v).fd = o.fd := rfl
@[simp] theorem SFdObj.setThandle_thandle (o : SFdObj) (v : Nat) :
    (o.setThandle v).thandle = v := rfl
@[simp] theorem SFdObj.setThandle_ip (o : SFdObj) (v : Nat) :
    (o.setThandle v).ip = o.ip := rfl
@[simp] theorem SFdObj.setThandle_port (o : SFdObj) (v : Nat) :
    (o.setThandle v).port = o.port := rfl
@[simp] theorem SFdObj.setThandle_pThreadObj (o : SFdObj) (v : Nat) :
    (o.setThandle v).pThreadObj = o.pThreadObj := rfl
@[simp] theorem SFdObj.setThandle_prev (o : SFdObj) (v : Nat) :
    (o.setThandle v).prev = o.prev := rfl
@[simp] theorem SFdObj.setThandle_next (o : SFdObj) (v : Nat) :
    (o.setThandle v).next = o.next := rfl

@[simp] theorem SThreadObj.setPHead_pHead (o : SThreadObj) (v : Nat) :
    (o.setPHead v).pHead = v := rfl
@[simp] theorem SThreadObj.setPHead_pollFd (o : SThreadObj) (v : Nat) :
    (o.setPHead v).pollFd = o.pollFd := rfl
@[simp] theorem SThreadObj.setPHead_numOfFds (o : SThreadObj) (v : Nat) :
    (o.setPHead v).numOfFds = o.numOfFds := rfl
@[simp] theorem SThreadObj.setPHead_threadId (o : SThreadObj) (v : Nat) :
    (o.setPHead v).threadId = o.threadId := rfl
@[simp] theorem SThreadObj.setPHead_shandle (o : SThreadObj) (v : Nat) :
    (o.setPHead v).shandle = o.shandle := rfl

@[simp] theorem SThreadObj.setPollFd_pHead (o : SThreadObj) (v : Int) :
    (o.setPollFd v).pHead = o.pHead := rfl
@[simp] theorem SThreadObj.setPollFd_pollFd (o : SThreadObj) (v : Int) :
    (o.setPollFd v).pollFd = v := rfl
@[simp] theorem SThreadObj.setPollFd_numOfFds (o : SThreadObj) (v : Int) :
    (o.setPollFd v).numOfFds = o.numOfFds := rfl
@[simp] theorem SThreadObj.setPollFd_threadId (o : SThreadObj) (v : Int) :
    (o.setPollFd v).threadId = o.threadId := rfl
@[simp] theorem SThreadObj.setPollFd_shandle (o : SThreadObj) (v : Int) :
    (o.setPollFd v).shandle = o.shandle := rfl

@[simp] theorem SThreadObj.setNumOfFds_pHead (o : SThreadObj) (v : Int) :
    (o.setNumOfFds v).pHead = o.pHead := rfl
@[simp] theorem SThreadObj.setNumOfFds_pollFd (o : SThreadObj) (v : Int) :
    (o.setNumOfFds v).pollFd = o.pollFd := rfl
@[simp] theorem SThreadObj.setNumOfFds_numOfFds (o : SThreadObj) (v : Int) :
    (o.setNumOfFds v).numOfFds = v := rfl
@[simp] theorem SThreadObj.setNumOfFds_threadId (o : SThreadObj) (v : Int) :
    (o.setNumOfFds v).threadId = o.threadId := rfl
@[simp] theorem SThreadObj.setNumOfFds_shandle (o : SThreadObj) (v : Int) :
    (o.setNumOfFds v).shandle = o.shandle := rfl

@[simp] theorem SThreadObj.setThreadId_pHead (o : SThreadObj) (v : Int) :
    (o.setThreadId v).pHead = o.pHead := rfl
@[simp] theorem SThreadObj.setThreadId_pollFd (o : SThreadObj) (v : Int) :
    (o.setThreadId v).pollFd = o.pollFd := rfl
@[simp] theorem SThreadObj.setThreadId_numOfFds (o : SThreadObj) (v : Int) :
    (o.setThreadId v).numOfFds = o.numOfFds := rfl
@[simp] theorem SThreadObj.setThreadId_threadId (o : SThreadObj) (v : Int) :
    (o.setThreadId v).threadId = v := rfl
@[simp] theorem SThreadObj.setThreadId_shandle (o : SThreadObj) (v : Int) :
    (o.setThreadId v).shandle = o.shandle := rfl

@[simp] theorem SThreadObj.setShandle_pHead (o : SThreadObj) (v : Nat) :
    (o.setShandle v).pHead = o.pHead := rfl
@[simp] theorem SThreadObj.setShandle_pollFd (o : SThreadObj) (v : Nat) :
    (o.setShandle v).pollFd = o.pollFd := rfl
@[simp] theorem SThreadObj.setShandle_numOfFds (o : SThreadObj) (v : Nat) :
    (o.setShandle v).numOfFds = o.numOfFds := rfl
@[simp] theorem SThreadObj.setShandle_threadId (o : SThreadObj) (v : Nat) :
    (o.setShandle v).threadId = o.threadId := rfl
@[simp] theorem SThreadObj.setShandle_shandle (o : SThreadObj) (v : Nat) :
    (o.setShandle v).shandle = v := rfl

end FieldLemmas

section Projections

variable (w : World)

@[simp] theorem World.setMem_mem (p : Nat) (v : SFdObj) :
    (w.setMem p v).mem = w.mem.set p v := rfl
@[simp] theorem World.setMem_allocated (p : Nat) (v : SFdObj) :
    (w.setMem p v).allocated = w.allocated := rfl
@[simp] theorem World.setMem_numOfThreads (p : Nat) (v : SFdObj) :
    (w.setMem p v).numOfThreads = w.numOfThreads := rfl
@[simp] theorem World.setMem_threads (p : Nat) (v : SFdObj) :
    (w.setMem p v).threads = w.threads := rfl
@[simp] theorem World.setMem_threadId (p : Nat) (v : SFdObj) :
    (w.setMem p v).threadId = w.threadId := rfl
@[simp] theorem World.setMem_sockFd (p : Nat) (v : SFdObj) :
    (w.setMem p v).sockFd = w.sockFd := rfl
@[simp] theorem World.setMem_openFds (p : Nat) (v : SFdObj) :
    (w.setMem p v).openFds = w.openFds := rfl
@[simp] theorem World.setMem_calls (p : Nat) (v : SFdObj) :
    (w.setMem p v).calls = w.calls := rfl

@[simp] theorem World.setThread_mem (t : Nat) (v : SThreadObj) :
    (w.setThread t v).mem = w.mem := rfl
@[simp] theorem World.setThread_allocated (t : Nat) (v : SThreadObj) :
    (w.setThread t v).allocated = w.allocated := rfl
@[simp] theorem World.setThread_numOfThreads (t : Nat) (v : SThreadObj) :
    (w.setThread t v).numOfThreads = w.numOfThreads := rfl
@[simp] theorem World.setThread_threads (t : Nat) (v : SThreadObj) :
    (w.setThread t v).threads = fun i => if i = t then v else w.threads i := rfl
@[simp] theorem World.setThread_threadId (t : Nat) (v : SThreadObj) :
    (w.setThread t v).threadId = w.threadId := rfl
@[simp] theorem World.setThread_sockFd (t : Nat) (v : SThreadObj) :
    (w.setThread t v).sockFd = w.sockFd := rfl
@[simp] theorem World.setThread_openFds (t : Nat) (v : SThreadObj) :
    (w.setThread t v).openFds = w.openFds := rfl
@[simp] theorem World.setThread_calls (t : Nat) (v : SThreadObj) :
    (w.setThread t v).calls = w.calls := rfl

@[simp] theorem World.close_mem (fd : Int) :
    (w.close fd).mem = w.mem := rfl
@[simp] theorem World.close_allocated (fd : Int) :
    (w.close fd).allocated = w.allocated := rfl
@[simp] theorem World.close_numOfThreads (fd : Int) :
    (w.close fd).numOfThreads = w.numOfThreads := rfl
@[simp] theorem World.close_threads (fd : Int) :
    (w.close fd).threads = w.threads := rfl
@[simp] theorem World.close_threadId (fd : Int) :
    (w.close fd).threadId = w.threadId := rfl
@[simp] theorem World.close_sockFd (fd : Int) :
    (w.close fd).sockFd = w.sockFd := rfl
@[simp] theorem World.close_openFds (fd : Int) :
    (w.close fd).openFds = w.openFds.erase fd := rfl
@[simp] theorem World.close_calls (fd : Int) :
    (w.close fd).calls = w.calls := rfl

@[simp] theorem World.openFd_mem (fd : Int) :
    (w.openFd fd).mem = w.mem := rfl
@[simp] theorem World.openFd_allocated (fd : Int) :
    (w.openFd fd).allocated = w.allocated := rfl
@[simp] theorem World.openFd_numOfThreads (fd : Int) :
    (w.openFd fd).numOfThreads = w.numOfThreads := rfl
@[simp] theorem World.openFd_threads (fd : Int) :
    (w.openFd fd).threads = w.threads := rfl
@[simp] theorem World.openFd_threadId (fd : Int) :
    (w.openFd fd).threadId = w.threadId := rfl
@[simp] theorem World.openFd_sockFd (fd : Int) :
    (w.openFd fd).sockFd = w.sockFd := rfl
@[simp] theorem World.openFd_openFds (fd : Int) :
    (w.openFd fd).openFds = fd :: w.openFds := rfl
@[simp] theorem World.openFd_calls (fd : Int) :
    (w.openFd fd).calls = w.calls := rfl

@[simp] theorem World.alloc_mem (p : Nat) :
    (w.alloc p).mem = w.mem := rfl
@[simp] theorem World.alloc_allocated (p : Nat) :
    (w.alloc p).allocated = p :: w.allocated := rfl
@[simp] theorem World.alloc_numOfThreads (p : Nat) :
    (w.alloc p).numOfThreads = w.numOfThreads := rfl
@[simp] theorem World.alloc_threads (p : Nat) :
    (w.alloc p).threads = w.threads := rfl
@[simp] theorem World.alloc_threadId (p : Nat) :
    (w.alloc p).threadId = w.threadId := rfl
@[simp] theorem World.alloc_sockFd (p : Nat) :
    (w.alloc p).sockFd = w.sockFd := rfl
@[simp] theorem World.alloc_openFds (p : Nat) :
    (w.alloc p).openFds = w.openFds := rfl
@[simp] theorem World.alloc_calls (p : Nat) :
    (w.alloc p).calls = w.calls := rfl

@[simp] theorem World.free_mem (p : Nat) :
    (w.free p).mem = w.mem := rfl
@[simp] theorem World.free_allocated (p : Nat) :
    (w.free p).allocated = w.allocated.erase p := rfl
@[simp] theorem World.free_numOfThreads (p : Nat) :
    (w.free p).numOfThreads = w.numOfThreads := rfl
@[simp] theorem World.free_threads (p : Nat) :
    (w.free p).threads = w.threads := rfl
@[simp] theorem World.free_threadId (p : Nat) :
    (w.free p).threadId = w.threadId := rfl
@[simp] theorem World.free_sockFd (p : Nat) :
    (w.free p).sockFd = w.sockFd := rfl
@[simp] theorem World.free_openFds (p : Nat) :
    (w.free p).openFds = w.openFds := rfl
@[simp] theorem World.free_calls (p : Nat) :
    (w.free p).calls = w.calls := rfl

@[simp] theorem World.addCall_mem (info : SRecvInfo) :
    (w.addCall info).mem = w.mem := rfl
@[simp] theorem World.addCall_allocated (info : SRecvInfo) :
    (w.addCall info).allocated = w.allocated := rfl
@[simp] theorem World.addCall_numOfThreads (info : SRecvInfo) :
    (w.addCall info).numOfThreads = w.numOfThreads := rfl
@[simp] theorem World.addCall_threads (info : SRecvInfo) :
    (w.addCall info).threads = w.threads := rfl
@[simp] theorem World.addCall_threadId (info : SRecvInfo) :
    (w.addCall info).threadId = w.threadId := rfl
@[simp] theorem World.addCall_sockFd (info : SRecvInfo) :
    (w.addCall info).sockFd = w.sockFd := rfl
@[simp] theorem World.addCall_openFds (info : SRecvInfo) :
    (w.addCall info).openFds = w.openFds := rfl
@[simp] theorem World.addCall_calls (info : SRecvInfo) :
    (w.addCall info).calls = w.calls ++ [info] := rfl

@[simp] theorem World.setAcceptorId_mem (i : Nat) :
    (w.setAcceptorId i).mem = w.mem := rfl
@[simp] theorem World.setAcceptorId_allocated (i : Nat) :
    (w.setAcceptorId i).allocated = w.allocated := rfl
@[simp] theorem World.setAcceptorId_numOfThreads (i : Nat) :
    (w.setAcceptorId i).numOfThreads = w.numOfThreads := rfl
@[simp] theorem World.setAcceptorId_threads (i : Nat) :
    (w.setAcceptorId i).threads = w.threads := rfl
@[simp] theorem World.setAcceptorId_threadId (i : Nat) :
    (w.setAcceptorId i).threadId = i := rfl
@[simp] theorem World.setAcceptorId_sockFd (i : Nat) :
    (w.setAcceptorId i).sockFd = w.sockFd := rfl
@[simp] theorem World.setAcceptorId_openFds (i : Nat) :
    (w.setAcceptorId i).openFds = w.openFds := rfl
@[simp] theorem World.setAcceptorId_calls (i : Nat) :
    (w.setAcceptorId i).calls = w.calls := rfl

@[simp] theorem Mem.set_same (m : Mem) (p : Nat) (v : SFdObj) : m.set p v p = v := by
  simp [Mem.set]

theorem Mem.set_other (m : Mem) {p q : Nat} (v : SFdObj) (h : q ≠ p) : m.set p v q = m q := by
  simp [Mem.set, h]

theorem Mem.set_apply (m : Mem) (p q : Nat) (v : SFdObj) :
    m.set p v q = if q = p then v else m q := rfl

theorem World.setThread_apply (t j : Nat) (v : SThreadObj) :
    (w.setThread t v).threads j = if j = t then v else w.threads j := rfl

end Projections

/-! ### Doubly linked chains -/

theorem DList.ne_zero {mem : Mem} : ∀ {l : List Nat} {h pv : Nat}, DList mem h pv l →
    ∀ q ∈ l, q ≠ 0
  | [], _, _, _, q, hq => by simp at hq
  | p :: l, h, pv, hd, q, hq => by
    obtain ⟨_, hp0, _, hrest⟩ := hd
    rcases List.mem_cons.1 hq with rfl | hq
    · exact hp0
    · exact DList.ne_zero hrest q hq

theorem DList.congr {mem mem2 : Mem} : ∀ {l : List Nat} {h pv : Nat},
    (∀ q ∈ l, (mem2 q).prev = (mem q).prev ∧ (mem2 q).next = (mem q).next) →
    DList mem h pv l → DList mem2 h pv l
  | [], _, _, _, hd => hd
  | p :: l, h, pv, hag, hd => by
    obtain ⟨h1, h2, h3, h4⟩ := hd
    have hp := hag p (List.mem_cons_self _ _)
    refine ⟨h1, h2, by rw [hp.1, h3], ?_⟩
    rw [hp.2]
    exact DList.congr (fun q hq => hag q (List.mem_cons_of_mem _ hq)) h4

/-- Give the first record of a chain another `prev` pointer. -/
theorem DList.set_prev {mem mem2 : Mem} {l : List Nat} {h pv pv2 : Nat}
    (hd : DList mem h pv l) (hnd : l.Nodup)
    (hnext : ∀ q ∈ l, (mem2 q).next = (mem q).next)
    (hprev : ∀ q ∈ l, (mem2 q).prev = if q = h then pv2 else (mem q).prev) :
    DList mem2 h pv2 l := by
  cases l with
  | nil => exact hd
  | cons n l2 =>
    obtain ⟨h1, h2, _, h4⟩ := hd
    subst h1
    have hn := List.nodup_cons.1 hnd
    refine ⟨rfl, h2, by simpa using hprev h (List.mem_cons_self _ _), ?_⟩
    rw [hnext h (List.mem_cons_self _ _)]
    refine DList.congr (fun q hq => ⟨?_, hnext q (List.mem_cons_of_mem _ hq)⟩) h4
    have hqh : q ≠ h := fun e => hn.1 (e ▸ hq)
    simpa [hqh] using hprev q (List.mem_cons_of_mem _ hq)

/-- The successor of a listed record is null or listed. -/
theorem DList.next_mem {mem : Mem} : ∀ {l : List Nat} {h pv : Nat}, DList mem h pv l →
    ∀ p ∈ l, (mem p).next = 0 ∨ (mem p).next ∈ l
  | [], _, _, _, p, hp => by simp at hp
  | q :: l, h, pv, hd, p, hp => by
    obtain ⟨_, _, _, h4⟩ := hd
    rcases List.mem_cons.1 hp with rfl | hp
    · cases l with
      | nil => exact Or.inl h4
      | cons n l2 => exact Or.inr (by rw [h4.1]; simp)
    · rcases DList.next_mem h4 p hp with h0 | hm
      · exact Or.inl h0
      · exact Or.inr (List.mem_cons_of_mem _ hm)

/-- A listed record is the head, with the given `prev`, or its predecessor is
listed. -/
theorem DList.prev_mem {mem : Mem} : ∀ {l : List Nat} {h pv : Nat}, DList mem h pv l →
    l.Nodup → ∀ p ∈ l, (h = p ∧ (mem p).prev = pv) ∨ (h ≠ p ∧ (mem p).prev ∈ l)
  | [], _, _, _, _, p, hp => by simp at hp
  | q :: l, h, pv, hd, hnd, p, hp => by
    obtain ⟨h1, _, h3, h4⟩ := hd
    have hn := List.nodup_cons.1 hnd
    rcases List.mem_cons.1 hp with rfl | hp
    · exact Or.inl ⟨h1, h3⟩
    · have hpq : h ≠ p := by
        rw [h1]; intro e; exact hn.1 (e ▸ hp)
      refine Or.inr ⟨hpq, ?_⟩
      rcases DList.prev_mem h4 hn.2 p hp with ⟨_, e⟩ | ⟨_, hm⟩
      · rw [e]; simp
      · exact List.mem_cons_of_mem _ hm

/-- Unlinking a listed record: when the successor pointer of its predecessor
and the predecessor pointer of its successor are redirected around `p`, the
chain is the old one without `p`. -/
theorem DList.unlink (mem mem2 : Mem) (p : Nat)
    (hn : ∀ q, q ≠ p → q ≠ 0 →
      (mem2 q).next = if q = (mem p).prev then (mem p).next else (mem q).next)
    (hp : ∀ q, q ≠ p → q ≠ 0 →
      (mem2 q).prev = if q = (mem p).next then (mem p).prev else (mem q).prev) :
    ∀ {l : List Nat} {h pv : Nat}, DList mem h pv l → l.Nodup → p ∈ l → pv ∉ l →
      DList mem2 (if h = p then (mem p).next else h) pv (l.erase p)
  | [], _, _, _, _, hm, _ => by simp at hm
  | q :: l, h, pv, hd, hnd, hm, hpv => by
    have hnz := DList.ne_zero hd
    obtain ⟨h1, h2, h3, h4⟩ := hd
    have hnc := List.nodup_cons.1 hnd
    have hpvq : pv ≠ q := fun e => hpv (e ▸ List.mem_cons_self _ _)
    have hpvl : pv ∉ l := fun e => hpv (List.mem_cons_of_mem _ e)
    by_cases hqp : q = p
    · subst hqp
      subst h1
      rw [if_pos rfl, List.erase_cons_head]
      refine DList.set_prev h4 hnc.2 (fun x hx => ?_) (fun x hx => ?_)
      · have hxq : x ≠ h := fun e => hnc.1 (e ▸ hx)
        have hx0 : x ≠ 0 := hnz x (List.mem_cons_of_mem _ hx)
        have hxpv : x ≠ (mem h).prev := by
          rw [h3]; intro e; exact hpvl (e ▸ hx)
        rw [hn x hxq hx0, if_neg hxpv]
      · have hxq : x ≠ h := fun e => hnc.1 (e ▸ hx)
        have hx0 : x ≠ 0 := hnz x (List.mem_cons_of_mem _ hx)
        rw [hp x hxq hx0, h3]
    · have hpl : p ∈ l := by
        rcases List.mem_cons.1 hm with e | e
        · exact absurd e.symm hqp
        · exact e
      have hhp : h ≠ p := by rw [h1]; exact hqp
      have hq0 : q ≠ 0 := h2
      rw [if_neg hhp, List.erase_cons_tail (by simpa using hqp)]
      have ih := DList.unlink mem mem2 p hn hp h4 hnc.2 hpl hnc.1
      have hprevq : (mem2 q).prev = pv := by
        rw [hp q hqp hq0, h3]
        have : q ≠ (mem p).next := by
          rcases DList.next_mem h4 p hpl with e | e
          · rw [e]; exact hq0
          · intro e2; exact hnc.1 (e2 ▸ e)
        rw [if_neg this]
      have hnextq : (mem2 q).next = if (mem q).next = p then (mem p).next else (mem q).next := by
        rw [hn q hqp hq0]
        rcases DList.prev_mem h4 hnc.2 p hpl with ⟨e1, e2⟩ | ⟨e1, e2⟩
        · rw [if_pos e2.symm, if_pos e1]
        · have : q ≠ (mem p).prev := fun e => hnc.1 (e ▸ e2)
          rw [if_neg this, if_neg e1]
      refine ⟨h1, h2, hprevq, ?_⟩
      rw [hnextq]
      exact ih

/-- Pushing a fresh record in front of a chain. -/
theorem DList.push {mem mem2 : Mem} {l : List Nat} {h p : Nat}
    (hd : DList mem h 0 l) (hnd : l.Nodup) (hp0 : p ≠ 0)
    (hprevp : (mem2 p).prev = 0) (hnextp : (mem2 p).next = h)
    (hnext : ∀ q ∈ l, (mem2 q).next = (mem q).next)
    (hprev : ∀ q ∈ l, (mem2 q).prev = if q = h then p else (mem q).prev) :
    DList mem2 p 0 (p :: l) := by
  refine ⟨rfl, hp0, hprevp, ?_⟩
  rw [hnextp]
  exact DList.set_prev hd hnd hnext hprev

@[simp] theorem SFdObj.setNext_core (o : SFdObj) (v : Nat) : (o.setNext v).core = o.core := rfl

@[simp] theorem SFdObj.setPrev_core (o : SFdObj) (v : Nat) : (o.setPrev v).core = o.core := rfl

/-! ### Field-wise description of the teardown -/

theorem Mem.set_setNext_core (m : Mem) (a v x : Nat) :
    (m.set a ((m a).setNext v) x).core = (m x).core := by
  by_cases h : x = a
  · subst h; simp
  · rw [Mem.set_other _ _ h]

theorem Mem.set_setPrev_core (m : Mem) (a v x : Nat) :
    (m.set a ((m a).setPrev v) x).core = (m x).core := by
  by_cases h : x = a
  · subst h; simp
  · rw [Mem.set_other _ _ h]

theorem Mem.set_setNext_next (m : Mem) (a v x : Nat) :
    (m.set a ((m a).setNext v) x).next = if x = a then v else (m x).next := by
  by_cases h : x = a
  · subst h; simp
  · rw [Mem.set_other _ _ h, if_neg h]

theorem Mem.set_setNext_prev (m : Mem) (a v x : Nat) :
    (m.set a ((m a).setNext v) x).prev = (m x).prev := by
  by_cases h : x = a
  · subst h; simp
  · rw [Mem.set_other _ _ h]

theorem Mem.set_setPrev_prev (m : Mem) (a v x : Nat) :
    (m.set a ((m a).setPrev v) x).prev = if x = a then v else (m x).prev := by
  by_cases h : x = a
  · subst h; simp
  · rw [Mem.set_other _ _ h, if_neg h]

theorem Mem.set_setPrev_next (m : Mem) (a v x : Nat) :
    (m.set a ((m a).setPrev v) x).next = (m x).next := by
  by_cases h : x = a
  · subst h; simp
  · rw [Mem.set_other _ _ h]

theorem unlinkPrev_core (w : World) (t p x : Nat) :
    ((unlinkPrev w t p).mem x).core = (w.mem x).core := by
  unfold unlinkPrev
  split_ifs
  · rw [World.setMem_mem, Mem.set_setNext_core]
  · rfl

theorem unlinkPrev_prev (w : World) (t p x : Nat) :
    ((unlinkPrev w t p).mem x).prev = (w.mem x).prev := by
  unfold unlinkPrev
  split_ifs
  · rw [World.setMem_mem, Mem.set_setNext_prev]
  · rfl

theorem unlinkPrev_next (w : World) (t p x : Nat) :
    ((unlinkPrev w t p).mem x).next =
      if x = (w.mem p).prev ∧ (w.mem p).prev ≠ 0 then (w.mem p).next else (w.mem x).next := by
  unfold unlinkPrev
  by_cases h : (w.mem p).prev = 0
  · simp [h]
  · simp [h, Mem.set_setNext_next]

theorem unlinkPrev_next_self (w : World) (t p : Nat) :
    ((unlinkPrev w t p).mem p).next = (w.mem p).next := by
  rw [unlinkPrev_next]; split_ifs <;> rfl

theorem unlinkPrev_threads (w : World) (t p j : Nat) :
    (unlinkPrev w t p).threads j =
      if j = t ∧ (w.mem p).prev = 0 then (w.threads t).setPHead (w.mem p).next
      else w.threads j := by
  unfold unlinkPrev
  by_cases h : (w.mem p).prev = 0
  · simp [h, World.setThread_apply]
  · simp [h]

theorem unlinkNext_core (w : World) (p x : Nat) :
    ((unlinkNext w p).mem x).core = (w.mem x).core := by
  unfold unlinkNext
  split_ifs
  · rw [World.setMem_mem, Mem.set_setPrev_core]
  · rfl

theorem unlinkNext_next (w : World) (p x : Nat) :
    ((unlinkNext w p).mem x).next = (w.mem x).next := by
  unfold unlinkNext
  split_ifs
  · rw [World.setMem_mem, Mem.set_setPrev_next]
  · rfl

theorem unlinkNext_prev (w : World) (p x : Nat) :
    ((unlinkNext w p).mem x).prev =
      if x = (w.mem p).next ∧ (w.mem p).next ≠ 0 then (w.mem p).prev else (w.mem x).prev := by
  unfold unlinkNext
  by_cases h : (w.mem p).next = 0
  · simp [h]
  · simp [h, Mem.set_setPrev_prev]

theorem unlinkNext_threads (w : World) (p : Nat) :
    (unlinkNext w p).threads = w.threads := by
  unfold unlinkNext
  split_ifs <;> rfl

theorem removeFromList_core (w : World) (t p x : Nat) :
    ((removeFromList w t p).mem x).core = (w.mem x).core := by
  rw [removeFromList, unlinkNext_core, unlinkPrev_core]

theorem removeFromList_next (w : World) (t p x : Nat) :
    ((removeFromList w t p).mem x).next =
      if x = (w.mem p).prev ∧ (w.mem p).prev ≠ 0 then (w.mem p).next else (w.mem x).next := by
  rw [removeFromList, unlinkNext_next, unlinkPrev_next]

theorem removeFromList_prev (w : World) (t p x : Nat) :
    ((removeFromList w t p).mem x).prev =
      if x = (w.mem p).next ∧ (w.mem p).next ≠ 0 then (w.mem p).prev else (w.mem x).prev := by
  rw [removeFromList, unlinkNext_prev, unlinkPrev_next_self, unlinkPrev_prev, unlinkPrev_prev]

theorem removeFromList_threads (w : World) (t p j : Nat) :
    (removeFromList w t p).threads j =
      if j = t ∧ (w.mem p).prev = 0 then (w.threads t).setPHead (w.mem p).next
      else w.threads j := by
  rw [removeFromList, unlinkNext_threads, unlinkPrev_threads]

theorem removeFromList_rest (w : World) (t p : Nat) :
    (removeFromList w t p).allocated = w.allocated ∧
    (removeFromList w t p).numOfThreads = w.numOfThreads ∧
    (removeFromList w t p).threadId = w.threadId ∧
    (removeFromList w t p).sockFd = w.sockFd ∧
    (removeFromList w t p).openFds = w.openFds ∧
    (removeFromList w t p).calls = w.calls := by
  unfold removeFromList unlinkNext unlinkPrev
  split_ifs <;> simp

theorem cleanup_live_eq {w : World} {p t : Nat} (hl : Live w p t) :
    taosCleanUpFdObj w p = notifyAndFree (removeFromList (beforeUnlink w p t) t p) t p := by
  unfold taosCleanUpFdObj
  simp only [hl.ne_null, hl.sig, hl.owner, if_false, ne_eq, not_true]
  rfl

theorem cleanup_not_live {w : World} {p : Nat}
    (h : p = 0 ∨ (w.mem p).signature ≠ p ∨ (w.mem p).pThreadObj = none) :
    taosCleanUpFdObj w p = w := by
  unfold taosCleanUpFdObj
  rcases h with h | h | h
  · simp [h]
  · simp [h]
  · rw [h]; split_ifs <;> rfl

theorem notifyAndFree_mem (w : World) (t p x : Nat) :
    (notifyAndFree w t p).mem x = if x = p then SFdObj.zero else w.mem x := by
  unfold notifyAndFree
  split_ifs <;> simp_all [Mem.set_apply]

theorem notifyAndFree_calls (w : World) (t p : Nat) :
    (notifyAndFree w t p).calls =
      w.calls ++ (if (w.mem p).thandle ≠ 0
        then [terminalInfo (w.threads t).shandle (w.mem p).thandle] else []) := by
  unfold notifyAndFree
  split_ifs <;> simp

theorem notifyAndFree_rest (w : World) (t p : Nat) :
    (notifyAndFree w t p).allocated = w.allocated.erase p ∧
    (notifyAndFree w t p).threads = w.threads ∧
    (notifyAndFree w t p).numOfThreads = w.numOfThreads ∧
    (notifyAndFree w t p).threadId = w.threadId ∧
    (notifyAndFree w t p).sockFd = w.sockFd ∧
    (notifyAndFree w t p).openFds = w.openFds := by
  unfold notifyAndFree
  split_ifs <;> simp

section LiveTeardown

variable {w : World} {p t : Nat} (hl : Live w p t)
include hl

theorem cleanup_mem_self : (taosCleanUpFdObj w p).mem p = SFdObj.zero := by
  rw [cleanup_live_eq hl, notifyAndFree_mem, if_pos rfl]

theorem cleanup_core {x : Nat} (hx : x ≠ p) :
    ((taosCleanUpFdObj w p).mem x).core = (w.mem x).core := by
  rw [cleanup_live_eq hl, notifyAndFree_mem, if_neg hx, removeFromList_core]
  rfl

theorem cleanup_next {x : Nat} (hx : x ≠ p) :
    ((taosCleanUpFdObj w p).mem x).next =
      if x = (w.mem p).prev ∧ (w.mem p).prev ≠ 0 then (w.mem p).next else (w.mem x).next := by
  rw [cleanup_live_eq hl, notifyAndFree_mem, if_neg hx, removeFromList_next]
  rfl

theorem cleanup_prev {x : Nat} (hx : x ≠ p) :
    ((taosCleanUpFdObj w p).mem x).prev =
      if x = (w.mem p).next ∧ (w.mem p).next ≠ 0 then (w.mem p).prev else (w.mem x).prev := by
  rw [cleanup_live_eq hl, notifyAndFree_mem, if_neg hx, removeFromList_prev]
  rfl

theorem cleanup_threads_other {j : Nat} (hj : j ≠ t) :
    (taosCleanUpFdObj w p).threads j = w.threads j := by
  rw [cleanup_live_eq hl, (notifyAndFree_rest _ _ _).2.1, removeFromList_threads]
  simp [hj, beforeUnlink, World.setThread_apply]

theorem cleanup_threads_owner :
    (taosCleanUpFdObj w p).threads t =
      (((w.threads t).setNumOfFds ((w.threads t).numOfFds - 1)).setPHead
        (if (w.mem p).prev = 0 then (w.mem p).next else (w.threads t).pHead)) := by
  rw [cleanup_live_eq hl, (notifyAndFree_rest _ _ _).2.1, removeFromList_threads]
  by_cases h : (w.mem p).prev = 0
  · simp [h, beforeUnlink, World.setThread_apply]
  · simp [h, beforeUnlink, World.setThread_apply]
    rfl

theorem cleanup_allocated : (taosCleanUpFdObj w p).allocated = w.allocated.erase p := by
  rw [cleanup_live_eq hl, (notifyAndFree_rest _ _ _).1, (removeFromList_rest _ _ _).1]
  rfl

theorem cleanup_openFds : (taosCleanUpFdObj w p).openFds = w.openFds.erase (w.mem p).fd := by
  rw [cleanup_live_eq hl, (notifyAndFree_rest _ _ _).2.2.2.2.2, (removeFromList_rest _ _ _).2.2.2.2.1]
  rfl

theorem cleanup_calls :
    (taosCleanUpFdObj w p).calls =
      w.calls ++ (if (w.mem p).thandle ≠ 0
        then [terminalInfo (w.threads t).shandle (w.mem p).thandle] else []) := by
  have hc := removeFromList_core (beforeUnlink w p t) t p p
  have ht : ((removeFromList (beforeUnlink w p t) t p).mem p).thandle = (w.mem p).thandle :=
    congrArg (fun c => c.2.2.1) hc
  have hs : ((removeFromList (beforeUnlink w p t) t p).threads t).shandle = (w.threads t).shandle := by
    rw [removeFromList_threads]
    split_ifs <;> simp [beforeUnlink, World.setThread_apply]
  rw [cleanup_live_eq hl, notifyAndFree_calls, ht, hs, (removeFromList_rest _ _ _).2.2.2.2.2]
  rfl

end LiveTeardown

theorem cleanup_numOfThreads (w : World) (p : Nat) :
    (taosCleanUpFdObj w p).numOfThreads = w.numOfThreads := by
  by_cases h : p = 0 ∨ (w.mem p).signature ≠ p ∨ (w.mem p).pThreadObj = none
  · rw [cleanup_not_live h]
  · simp only [not_or, not_not, ne_eq] at h
    obtain ⟨t, ht⟩ := Option.ne_none_iff_exists'.1 h.2.2
    rw [cleanup_live_eq ⟨h.1, h.2.1, ht⟩, (notifyAndFree_rest _ _ _).2.2.1,
      (removeFromList_rest _ _ _).2.1]
    rfl

/-- Either the guards of `taosCleanUpFdObj` pass or the call changes nothing. -/
theorem cleanup_cases (w : World) (p : Nat) :
    taosCleanUpFdObj w p = w ∨ ∃ t, Live w p t := by
  by_cases h : p = 0 ∨ (w.mem p).signature ≠ p ∨ (w.mem p).pThreadObj = none
  · exact Or.inl (cleanup_not_live h)
  · simp only [not_or, not_not, ne_eq] at h
    obtain ⟨t, ht⟩ := Option.ne_none_iff_exists'.1 h.2.2
    exact Or.inr ⟨t, h.1, h.2.1, ht⟩

/-! ### The registry invariant is kept by teardown -/

theorem Inv.disjoint {w : World} {ls : Nat → List Nat} (hI : Inv w ls) {i j q : Nat}
    (hi : i < w.numOfThreads) (hj : j < w.numOfThreads) (hqi : q ∈ ls i) (hqj : q ∈ ls j) :
    i = j := by
  have h1 := ((hI i hi).owned q hqi).2.1
  have h2 := ((hI j hj).owned q hqj).2.1
  rw [h1] at h2
  exact Option.some.inj h2

/-- Teardown of a listed record keeps the list of its worker consistent. -/
theorem cleanup_workerOK {w : World} {l : List Nat} {p t : Nat}
    (hWt : WorkerOK w t l) (hl : Live w p t) (hp : p ∈ l) :
    WorkerOK (taosCleanUpFdObj w p) t (l.erase p) := by
  have hnz := DList.ne_zero hWt.chain
  have hprev := DList.prev_mem hWt.chain hWt.nodup p hp
  refine ⟨?_, hWt.nodup.erase p, ?_, ?_⟩
  · rw [cleanup_threads_owner hl]
    have hd := DList.unlink w.mem (taosCleanUpFdObj w p).mem p
      (fun q hq hq0 => by
        rw [cleanup_next hl hq]
        by_cases e : q = (w.mem p).prev
        · have : (w.mem p).prev ≠ 0 := e ▸ hq0
          simp [e, this]
        · simp [e])
      (fun q hq hq0 => by
        rw [cleanup_prev hl hq]
        by_cases e : q = (w.mem p).next
        · have : (w.mem p).next ≠ 0 := e ▸ hq0
          simp [e, this]
        · simp [e])
      hWt.chain hWt.nodup hp (fun h0 => hnz 0 h0 rfl)
    have hh : (if (w.threads t).pHead = p then (w.mem p).next else (w.threads t).pHead)
        = (if (w.mem p).prev = 0 then (w.mem p).next else (w.threads t).pHead) := by
      rcases hprev with ⟨e1, e2⟩ | ⟨e1, e2⟩
      · rw [if_pos e1, if_pos e2]
      · rw [if_neg e1, if_neg (hnz _ e2)]
    rw [hh] at hd
    simpa using hd
  · rw [cleanup_threads_owner hl]
    simp only [SThreadObj.setPHead_numOfFds, SThreadObj.setNumOfFds_numOfFds]
    rw [hWt.count, List.length_erase_of_mem hp]
    have : 1 ≤ l.length := List.length_pos_of_mem hp
    omega
  · intro q hq
    have hq2 := (hWt.nodup.mem_erase_iff).1 hq
    have hc := cleanup_core hl hq2.1
    have ho := hWt.owned q hq2.2
    have h1 : ((taosCleanUpFdObj w p).mem q).signature = (w.mem q).signature :=
      congrArg (fun c => c.1) hc
    have h2 : ((taosCleanUpFdObj w p).mem q).pThreadObj = (w.mem q).pThreadObj :=
      congrArg (fun c => c.2.2.2.2.2) hc
    refine ⟨h1.trans ho.1, h2.trans ho.2.1, ?_⟩
    rw [cleanup_allocated hl]
    exact (List.mem_erase_of_ne hq2.1).2 ho.2.2

theorem pushFdObj_core (w : World) (t p x : Nat) :
    ((pushFdObj w t p).mem x).core = (w.mem x).core := by
  unfold pushFdObj
  simp only [World.setThread_mem, World.setMem_threads]
  split_ifs
  · rw [World.setMem_mem, Mem.set_setPrev_core, World.setMem_mem, Mem.set_setNext_core]
  · rw [World.setMem_mem, Mem.set_setNext_core]

theorem pushFdObj_next (w : World) (t p x : Nat) :
    ((pushFdObj w t p).mem x).next = if x = p then (w.threads t).pHead else (w.mem x).next := by
  unfold pushFdObj
  simp only [World.setThread_mem, World.setMem_threads]
  split_ifs <;> simp_all [Mem.set_setPrev_next, Mem.set_setNext_next]

theorem pushFdObj_prev (w : World) (t p x : Nat) :
    ((pushFdObj w t p).mem x).prev =
      if x = (w.threads t).pHead ∧ (w.threads t).pHead ≠ 0 then p else (w.mem x).prev := by
  unfold pushFdObj
  simp only [World.setThread_mem, World.setMem_threads]
  by_cases h : (w.threads t).pHead = 0
  · simp [h, Mem.set_setNext_prev]
  · simp [h, Mem.set_setPrev_prev, Mem.set_setNext_prev]

theorem pushFdObj_threads (w : World) (t p j : Nat) :
    (pushFdObj w t p).threads j =
      if j = t then ((w.threads t).setPHead p).setNumOfFds ((w.threads t).numOfFds + 1)
      else w.threads j := by
  unfold pushFdObj
  by_cases h0 : (w.threads t).pHead = 0
  · by_cases h : j = t
    · subst h; simp [h0, World.setThread_apply]
    · simp [h0, World.setThread_apply, h]
  · by_cases h : j = t
    · subst h; simp [h0, World.setThread_apply]
    · simp [h0, World.setThread_apply, h]

theorem pushFdObj_rest (w : World) (t p : Nat) :
    (pushFdObj w t p).allocated = w.allocated ∧
    (pushFdObj w t p).numOfThreads = w.numOfThreads ∧
    (pushFdObj w t p).threadId = w.threadId ∧
    (pushFdObj w t p).sockFd = w.sockFd ∧
    (pushFdObj w t p).openFds = w.openFds ∧
    (pushFdObj w t p).calls = w.calls := by
  unfold pushFdObj
  simp only [World.setThread_mem, World.setMem_threads]
  split_ifs <;> simp

theorem accept_admitted_eq {w : World} {a : AcceptIn} (h : a.admitted) :
    acceptLoopBody w a =
      (pushFdObj (beforePush w a) w.threadId a.mallocRet).setAcceptorId
        ((w.threadId + 1) % w.numOfThreads) := by
  obtain ⟨h1, h2, h3⟩ := h
  unfold acceptLoopBody
  simp only [not_lt.2 h1, h2, not_lt.2 h3, if_false]
  simp only [World.openFd_threadId, (pushFdObj_rest _ _ _).2.1, (pushFdObj_rest _ _ _).2.2.1]
  rfl

section Admission

variable {w : World} {a : AcceptIn} (h : a.admitted)
include h

theorem accept_mem_other {x : Nat} (hx : x ≠ a.mallocRet) :
    ((acceptLoopBody w a).mem x).core = (w.mem x).core ∧
    ((acceptLoopBody w a).mem x).next = (w.mem x).next ∧
    ((acceptLoopBody w a).mem x).prev =
      if x = (w.threads w.threadId).pHead ∧ (w.threads w.threadId).pHead ≠ 0
      then a.mallocRet else (w.mem x).prev := by
  rw [accept_admitted_eq h]
  simp only [World.setAcceptorId_mem]
  rw [pushFdObj_core, pushFdObj_next, pushFdObj_prev, if_neg hx]
  simp [beforePush, Mem.set_other _ _ hx]

theorem accept_mem_new :
    ((acceptLoopBody w a).mem a.mallocRet).core = (newFdObj a w.threadId a.mallocRet).core ∧
    ((acceptLoopBody w a).mem a.mallocRet).next = (w.threads w.threadId).pHead ∧
    ((acceptLoopBody w a).mem a.mallocRet).prev =
      if a.mallocRet = (w.threads w.threadId).pHead then a.mallocRet else 0 := by
  rw [accept_admitted_eq h]
  simp only [World.setAcceptorId_mem]
  rw [pushFdObj_core, pushFdObj_next, pushFdObj_prev, if_pos rfl]
  have h2 := h.2.1
  refine ⟨by simp [beforePush], by simp [beforePush], ?_⟩
  by_cases e : a.mallocRet = (w.threads w.threadId).pHead
  · have : (w.threads w.threadId).pHead ≠ 0 := e ▸ h2
    simp [beforePush, ← e, h2]
  · simp [beforePush, e, newFdObj]

theorem accept_threads (j : Nat) :
    (acceptLoopBody w a).threads j =
      if j = w.threadId then
        ((w.threads j).setPHead a.mallocRet).setNumOfFds ((w.threads j).numOfFds + 1)
      else w.threads j := by
  rw [accept_admitted_eq h]
  simp only [World.setAcceptorId_threads]
  rw [pushFdObj_threads]
  by_cases e : j = w.threadId
  · subst e; simp [beforePush]
  · simp [beforePush, e]

theorem accept_rest :
    (acceptLoopBody w a).allocated = a.mallocRet :: w.allocated ∧
    (acceptLoopBody w a).numOfThreads = w.numOfThreads ∧
    (acceptLoopBody w a).threadId = (w.threadId + 1) % w.numOfThreads ∧
    (acceptLoopBody w a).sockFd = w.sockFd ∧
    (acceptLoopBody w a).openFds = a.connFd :: w.openFds ∧
    (acceptLoopBody w a).calls = w.calls := by
  rw [accept_admitted_eq h]
  simp [pushFdObj_rest, beforePush]

end Admission

/-! ### The registry invariant is kept by the acceptor -/

theorem Inv.not_listed {w : World} {ls : Nat → List Nat} (hI : Inv w ls) {p : Nat}
    (hp : p ∉ w.allocated) {j : Nat} (hj : j < w.numOfThreads) : p ∉ ls j :=
  fun hm => hp ((hI j hj).owned p hm).2.2

theorem accept_inv {w : World} {ls : Nat → List Nat} {a : AcceptIn}
    (hI : Inv w ls) (h : a.admitted) (hf : a.mallocRet ∉ w.allocated)
    (ht : w.threadId < w.numOfThreads) :
    Inv (acceptLoopBody w a) (consAt ls w.threadId a.mallocRet) := by
  have hp0 : a.mallocRet ≠ 0 := h.2.1
  intro j hj
  rw [(accept_rest h).2.1] at hj
  have hWj := hI j hj
  have hnl : ∀ i, i < w.numOfThreads → a.mallocRet ∉ ls i := fun i hi => hI.not_listed hf hi
  have hne : ∀ i, i < w.numOfThreads → ∀ q ∈ ls i, q ≠ a.mallocRet :=
    fun i hi q hq e => hnl i hi (e ▸ hq)
  have hown : ∀ i, i < w.numOfThreads → ∀ q ∈ ls i,
      ((acceptLoopBody w a).mem q).signature = q ∧
      ((acceptLoopBody w a).mem q).pThreadObj = some i ∧
      q ∈ (acceptLoopBody w a).allocated := by
    intro i hi q hq
    have hc := (accept_mem_other (w := w) h (hne i hi q hq)).1
    have ho := (hI i hi).owned q hq
    have h1 : ((acceptLoopBody w a).mem q).signature = (w.mem q).signature :=
      congrArg (fun c => c.1) hc
    have h2 : ((acceptLoopBody w a).mem q).pThreadObj = (w.mem q).pThreadObj :=
      congrArg (fun c => c.2.2.2.2.2) hc
    refine ⟨h1.trans ho.1, h2.trans ho.2.1, ?_⟩
    rw [(accept_rest h).1]
    exact List.mem_cons_of_mem _ ho.2.2
  by_cases hjt : j = w.threadId
  · subst hjt
    have hls : consAt ls w.threadId a.mallocRet w.threadId = a.mallocRet :: ls w.threadId := by
      simp [consAt]
    rw [hls]
    have hhead : a.mallocRet ≠ (w.threads w.threadId).pHead := by
      intro e
      cases hl : ls w.threadId with
      | nil =>
        have := hWj.chain
        rw [hl] at this
        exact hp0 (e.trans this)
      | cons n l2 =>
        have := hWj.chain
        rw [hl] at this
        exact hnl _ hj (by rw [hl, e, this.1]; simp)
    refine ⟨?_, List.nodup_cons.2 ⟨hnl _ hj, hWj.nodup⟩, ?_, ?_⟩
    · rw [accept_threads h, if_pos rfl]
      simp only [SThreadObj.setNumOfFds_pHead, SThreadObj.setPHead_pHead]
      refine DList.push hWj.chain hWj.nodup hp0 ?_ ?_ ?_ ?_
      · rw [(accept_mem_new h).2.2, if_neg hhead]
      · exact (accept_mem_new h).2.1
      · intro q hq
        exact (accept_mem_other h (hne _ hj q hq)).2.1
      · intro q hq
        rw [(accept_mem_other h (hne _ hj q hq)).2.2]
        have hq0 : q ≠ 0 := DList.ne_zero hWj.chain q hq
        by_cases e : q = (w.threads w.threadId).pHead
        · have : (w.threads w.threadId).pHead ≠ 0 := e ▸ hq0
          simp [e, this]
        · simp [e]
    · rw [accept_threads h, if_pos rfl]
      simp only [SThreadObj.setNumOfFds_numOfFds]
      rw [hWj.count]
      simp
    · intro q hq
      rcases List.mem_cons.1 hq with e | hq
      · subst e
        have hc := (accept_mem_new (w := w) h).1
        have h1 : ((acceptLoopBody w a).mem a.mallocRet).signature = a.mallocRet :=
          congrArg (fun c => c.1) hc
        have h2 : ((acceptLoopBody w a).mem a.mallocRet).pThreadObj = some w.threadId :=
          congrArg (fun c => c.2.2.2.2.2) hc
        refine ⟨h1, h2, ?_⟩
        rw [(accept_rest h).1]
        exact List.mem_cons_self _ _
      · exact hown _ hj q hq
  · have hls : consAt ls w.threadId a.mallocRet j = ls j := by simp [consAt, hjt]
    rw [hls]
    refine ⟨?_, hWj.nodup, ?_, hown j hj⟩
    · rw [accept_threads h, if_neg hjt]
      refine DList.congr (fun q hq => ?_) hWj.chain
      have hm := accept_mem_other (w := w) h (hne j hj q hq)
      refine ⟨?_, hm.2.1⟩
      rw [hm.2.2]
      have : ¬ (q = (w.threads w.threadId).pHead ∧ (w.threads w.threadId).pHead ≠ 0) := by
        rintro ⟨e, e0⟩
        have hWt := hI _ ht
        cases hl : ls w.threadId with
        | nil =>
          have := hWt.chain
          rw [hl] at this
          exact e0 this
        | cons n l2 =>
          have := hWt.chain
          rw [hl] at this
          have hqt : q ∈ ls w.threadId := by rw [hl, e, this.1]; simp
          exact hjt (hI.disjoint hj ht hq hqt)
      rw [if_neg this]
    · rw [accept_threads h, if_neg hjt]
      exact hWj.count

/-- An iteration that does not reach the list push leaves every list alone. -/
theorem accept_rejected_inv {w : World} {ls : Nat → List Nat} {a : AcceptIn}
    (hI : Inv w ls) (h : ¬ a.admitted) (hf : mallocFresh w a) :
    Inv (acceptLoopBody w a) ls ∧ (acceptLoopBody w a).threadId = w.threadId ∧
      (acceptLoopBody w a).numOfThreads = w.numOfThreads := by
  unfold acceptLoopBody
  by_cases h1 : a.connFd < 0
  · simp only [h1, if_true]
    exact ⟨hI, trivial, trivial⟩
  · by_cases h2 : a.mallocRet = 0
    · simp only [h1, h2, if_true, if_false]
      refine ⟨fun j hj => ?_, rfl, rfl⟩
      have hW := hI j hj
      exact ⟨hW.chain, hW.nodup, hW.count, hW.owned⟩
    · have h3 : a.epollCtlRet < 0 := by
        by_contra h3
        exact h ⟨not_lt.1 h1, h2, not_lt.1 h3⟩
      have hp := hf (not_lt.1 h1) h2
      simp only [h1, h2, h3, if_true, if_false]
      refine ⟨fun j hj => ?_, rfl, rfl⟩
      have hW := hI j hj
      have hne : ∀ q ∈ ls j, q ≠ a.mallocRet := fun q hq e => hI.not_listed hp hj (e ▸ hq)
      refine ⟨?_, hW.nodup, hW.count, ?_⟩
      · refine DList.congr (fun q hq => ?_) hW.chain
        simp [Mem.set_other _ _ (hne q hq)]
      · intro q hq
        have ho := hW.owned q hq
        simp only [World.close_mem, World.free_mem, World.setMem_mem, World.close_allocated,
          World.free_allocated, World.setMem_allocated, World.alloc_allocated,
          Mem.set_other _ _ (hne q hq), World.alloc_mem, World.openFd_mem,
          World.openFd_allocated, List.erase_cons_head]
        exact ho

/-! ### C2: the count invariant -/

theorem Fresh.inv {w : World} (hf : Fresh w) : Inv w (fun _ => []) := by
  intro i hi
  refine ⟨(hf.heads i hi).1, List.nodup_nil, by simpa using (hf.heads i hi).2, ?_⟩
  intro p hp
  simp at hp

theorem cleanup_threadId (w : World) (p : Nat) :
    (taosCleanUpFdObj w p).threadId = w.threadId := by
  rcases cleanup_cases w p with h | ⟨t, hl⟩
  · rw [h]
  · rw [cleanup_live_eq hl, (notifyAndFree_rest _ _ _).2.2.2.1, (removeFromList_rest _ _ _).2.2.1]
    rfl

theorem initWorkers_spec (sh : Nat) (x : Nat → ThreadInitIn) :
    ∀ (n i : Nat) (w w2 : World), initWorkers sh x n i w = some w2 →
      w2.mem = w.mem ∧ w2.allocated = w.allocated ∧ w2.numOfThreads = w.numOfThreads ∧
      w2.threadId = w.threadId ∧ w2.calls = w.calls ∧
      (∀ j, (w2.threads j).pHead = (w.threads j).pHead ∧
        (w2.threads j).numOfFds = (w.threads j).numOfFds) ∧
      (∀ j, j < i → (w2.threads j).shandle = (w.threads j).shandle) ∧
      (∀ j, i ≤ j → j < i + n → (w2.threads j).shandle = sh)
  | 0, i, w, w2, h => by
    simp only [initWorkers, Option.some.injEq] at h
    subst h
    exact ⟨rfl, rfl, rfl, rfl, rfl, fun _ => ⟨rfl, rfl⟩, fun _ _ => rfl, fun j h1 h2 => by omega⟩
  | n + 1, i, w, w2, h => by
    simp only [initWorkers] at h
    split_ifs at h with h1 h2 h3 h4
    obtain ⟨e1, e2, e3, e4, e5, e6, e7, e8⟩ := initWorkers_spec sh x n (i + 1) _ w2 h
    refine ⟨e1, e2, e3, e4, e5, ?_, ?_, ?_⟩
    · intro j
      rw [(e6 j).1, (e6 j).2]
      by_cases hj : j = i
      · subst hj; simp [World.setThread_apply]
      · simp [World.setThread_apply, hj]
    · intro j hj
      rw [e7 j (by omega)]
      have : j ≠ i := by omega
      simp [World.setThread_apply, this]
    · intro j hj1 hj2
      by_cases hj : j = i
      · subst hj
        rw [e7 j (by omega)]
        simp [World.setThread_apply]
      · exact e8 j (by omega) (by omega)

/-- What a successful `taosInitTcpServer` leaves behind: workers with empty
lists and zero counts that all carry the handle given to the call, and a heap
without records. -/
theorem init_spec {N sh : Nat} {x : InitIn} {w : World}
    (h : taosInitTcpServer N sh x = some w) :
    w.numOfThreads = N ∧ w.threadId = 0 ∧ w.calls = [] ∧ w.allocated = [] ∧
    (∀ p, w.mem p = SFdObj.zero) ∧
    (∀ j, (w.threads j).pHead = 0 ∧ (w.threads j).numOfFds = 0) ∧
    (∀ j, j < N → (w.threads j).shandle = sh) := by
  unfold taosInitTcpServer at h
  simp only at h
  by_cases h1 : x.poolAllocOk = false
  · rw [if_pos h1] at h; exact absurd h (by simp)
  rw [if_neg h1] at h
  generalize hw : initWorkers _ _ _ _ _ = r at h
  cases r with
  | none => exact absurd h (by simp)
  | some w2 =>
    simp only at h
    by_cases h2 : x.acceptCreateRet ≠ 0
    · rw [if_pos h2] at h; exact absurd h (by simp)
    rw [if_neg h2] at h
    simp only [Option.some.injEq] at h
    subst h
    obtain ⟨e1, e2, e3, e4, e5, e6, _, e8⟩ := initWorkers_spec sh x.perThread N 0 _ _ hw
    refine ⟨e3, e4, e5, e2, fun p => by rw [e1]; rfl, fun j => ?_, fun j hj => ?_⟩
    · rw [(e6 j).1, (e6 j).2]; exact ⟨rfl, rfl⟩
    · exact e8 j (Nat.zero_le _) (by omega)

/-- The workers are fresh after a successful start. -/
theorem init_fresh {N sh : Nat} {x : InitIn} {w : World} (hN : 0 < N)
    (h : taosInitTcpServer N sh x = some w) : Fresh w := by
  obtain ⟨e1, e2, _, _, e5, e6, _⟩ := init_spec h
  exact ⟨by rw [e1]; exact hN, fun i _ => e6 i, fun p => by rw [e5 p]; rfl, e2⟩

/-! ### C6: the drain loop of `taosCleanUpTcpServer` -/

theorem World.setThread_self (w : World) (i : Nat) :
    w.setThread i ((w.threads i).setPHead (w.threads i).pHead) = w := by
  have : (fun j => if j = i then (w.threads i).setPHead (w.threads i).pHead else w.threads j)
      = w.threads := by
    funext j
    by_cases h : j = i
    · subst h; simp [SThreadObj.setPHead]
    · simp [h]
  unfold World.setThread
  rw [this]

/-- The drain loop on a consistent worker list `l`: with a bound of at least
`length l` iterations it ends, having called `taosCleanUpFdObj` on exactly the
records of `l`, head first; every block of `l` is released, every descriptor
of `l` is closed, the terminal callbacks owed to `l` are delivered, and the
worker is left with the empty list. -/
theorem drainLoop_spec : ∀ (l : List Nat) (w : World) (i : Nat), WorkerOK w i l →
    ∀ fuel, l.length ≤ fuel →
    ∃ w2, drainLoop fuel w i = some (w2, l) ∧ WorkerOK w2 i [] ∧
      w2.allocated = w.allocated.diff l ∧
      w2.openFds = w.openFds.diff (l.map (fun p => (w.mem p).fd)) ∧
      w2.calls = w.calls ++ terminalCalls w.mem (w.threads i).shandle l ∧
      w2.numOfThreads = w.numOfThreads ∧ w2.sockFd = w.sockFd ∧
      (∀ j, j ≠ i → w2.threads j = w.threads j) ∧
      (w2.threads i).pollFd = (w.threads i).pollFd ∧
      (w2.threads i).shandle = (w.threads i).shandle ∧
      (∀ x, x ∉ l → (w2.mem x).core = (w.mem x).core)
  | [], w, i, hW, fuel, _ => by
    have h0 : (w.threads i).pHead = 0 := hW.chain
    refine ⟨w, ?_, hW, rfl, rfl, by simp [terminalCalls], rfl, rfl, fun _ _ => rfl, rfl, rfl,
      fun _ _ => rfl⟩
    unfold drainLoop
    simp [h0]
  | p :: l, w, i, hW, fuel, hfuel => by
    obtain ⟨hh, hp0, _, _⟩ := hW.chain
    have ho := hW.owned p (List.mem_cons_self _ _)
    have hl : Live w p i := ⟨hp0, ho.1, ho.2.1⟩
    have hW1 := cleanup_workerOK hW hl (List.mem_cons_self _ _)
    rw [List.erase_cons_head] at hW1
    cases fuel with
    | zero => simp at hfuel
    | succ f =>
      have hf : l.length ≤ f := by simpa using hfuel
      obtain ⟨w2, e1, e2, e3, e4, e5, e6, e6b, e7, e8, e9, e10⟩ :=
        drainLoop_spec l (taosCleanUpFdObj w p) i hW1 f hf
      have hpl : p ∉ l := (List.nodup_cons.1 hW.nodup).1
      have hcore : ∀ q ∈ l, ((taosCleanUpFdObj w p).mem q).core = (w.mem q).core :=
        fun q hq => cleanup_core hl (fun e => hpl (e ▸ hq))
      have hfd : l.map (fun q => ((taosCleanUpFdObj w p).mem q).fd)
          = l.map (fun q => (w.mem q).fd) :=
        List.map_congr_left (fun q hq => congrArg (fun c => c.2.1) (hcore q hq))
      have hsh : ((taosCleanUpFdObj w p).threads i).shandle = (w.threads i).shandle := by
        rw [cleanup_threads_owner hl]; rfl
      have hpoll : ((taosCleanUpFdObj w p).threads i).pollFd = (w.threads i).pollFd := by
        rw [cleanup_threads_owner hl]; rfl
      have hcalls : terminalCalls (taosCleanUpFdObj w p).mem (w.threads i).shandle l
          = terminalCalls w.mem (w.threads i).shandle l := by
        unfold terminalCalls
        have hth : ∀ q ∈ l, ((taosCleanUpFdObj w p).mem q).thandle = (w.mem q).thandle :=
          fun q hq => congrArg (fun c => c.2.2.1) (hcore q hq)
        rw [List.filter_congr (q := fun q => decide ((w.mem q).thandle ≠ 0))
          (fun q hq => by rw [hth q hq])]
        exact List.map_congr_left (fun q hq => by rw [hth q (List.mem_of_mem_filter hq)])
      refine ⟨w2, ?_, e2, ?_, ?_, ?_, ?_, ?_, ?_, ?_, ?_, ?_⟩
      · unfold drainLoop
        rw [if_neg (by rw [hh]; exact hp0)]
        simp only
        rw [World.setThread_self, hh, e1]
      · rw [e3, cleanup_allocated hl, List.diff_cons]
      · rw [e4, cleanup_openFds hl, hfd, List.map_cons, List.diff_cons]
      · rw [e5, cleanup_calls hl, hsh, hcalls, List.append_assoc]
        congr 1
        unfold terminalCalls
        by_cases ht : (w.mem p).thandle = 0
        · simp [ht]
        · simp [ht]
      · rw [e6, cleanup_numOfThreads]
      · rw [e6b, cleanup_live_eq hl, (notifyAndFree_rest _ _ _).2.2.2.2.1,
          (removeFromList_rest _ _ _).2.2.2.1]
        rfl
      · intro j hj
        rw [e7 j hj, cleanup_threads_other hl hj]
      · rw [e8, hpoll]
      · rw [e9, hsh]
      · intro x hx
        have hxp : x ≠ p := fun e => hx (e ▸ List.mem_cons_self _ _)
        have hxl : x ∉ l := fun e => hx (List.mem_cons_of_mem _ e)
        rw [e10 x hxl, cleanup_core hl hxp]

theorem drainLoop_fuel : ∀ (f : Nat) (w : World) (i : Nat) (r : World × List Nat),
    drainLoop f w i = some r → drainLoop (f + 1) w i = some r
  | 0, w, i, r, h => by
    unfold drainLoop at h ⊢
    by_cases h0 : (w.threads i).pHead = 0
    · simpa [h0] using h
    · simp [h0] at h
  | f + 1, w, i, r, h => by
    unfold drainLoop at h ⊢
    by_cases h0 : (w.threads i).pHead = 0
    · simpa [h0] using h
    · simp only [h0, if_false] at h ⊢
      generalize hr : drainLoop f _ i = r2 at h
      cases r2 with
      | none => simp at h
      | some r3 =>
        rw [drainLoop_fuel f _ i r3 hr]
        exact h

theorem drainLoop_fuel_le {f g : Nat} (hfg : f ≤ g) {w : World} {i : Nat} {r : World × List Nat}
    (h : drainLoop f w i = some r) : drainLoop g w i = some r := by
  induction hfg with
  | refl => exact h
  | step _ ih => exact drainLoop_fuel _ w i r ih

/-- C6. The loop `while (pHead) { taosCleanUpFdObj(pHead); pHead = pHead; }`
of `taosCleanUpTcpServer`, run on a worker whose list holds the live records
`l` (each with its own address as signature and an owner pointer to this
worker, `numOfFds` being their number): it ends after exactly `length l`
iterations (with that bound or any larger one, and with no smaller one),
`taosCleanUpFdObj` is called on the records of `l`, each once and head first,
every block of `l` is released, and the worker is left with `pHead` null and
`numOfFds = 0`. -/
theorem stop_drains_worker (w : World) (i : Nat) (l : List Nat) (hW : WorkerOK w i l) :
    ∃ w2, (∀ fuel, l.length ≤ fuel → drainLoop fuel w i = some (w2, l)) ∧
      (∀ fuel, fuel < l.length → drainLoop fuel w i = none) ∧
      l.Nodup ∧ (w2.threads i).pHead = 0 ∧ (w2.threads i).numOfFds = 0 ∧
      w2.allocated = w.allocated.diff l := by
  obtain ⟨w2, h1, h2, h3, _⟩ := drainLoop_spec l w i hW l.length (Nat.le_refl _)
  refine ⟨w2, fun fuel hf => drainLoop_fuel_le hf h1, ?_, hW.nodup, h2.chain, ?_, h3⟩
  · intro fuel hf
    cases hr : drainLoop fuel w i with
    | none => rfl
    | some r =>
      have h4 := drainLoop_fuel_le (Nat.le_of_lt hf) hr
      rw [h1] at h4
      have h5 : r = (w2, l) := (Option.some.inj h4).symm
      subst h5
      exfalso
      clear h4 h1
      revert hf hr
      generalize hlen : l.length = n
      intro hf hr
      have : ∀ (f : Nat) (w : World) (r : World × List Nat),
          drainLoop f w i = some r → r.2.length ≤ f := by
        intro f
        induction f with
        | zero =>
          intro w r h
          unfold drainLoop at h
          by_cases h0 : (w.threads i).pHead = 0
          · simp [h0] at h; subst h; simp
          · simp [h0] at h
        | succ f ih =>
          intro w r h
          unfold drainLoop at h
          by_cases h0 : (w.threads i).pHead = 0
          · simp [h0] at h; subst h; simp
          · simp only [h0, if_false] at h
            generalize hr2 : drainLoop f _ i = r2 at h
            cases r2 with
            | none => simp at h
            | some r3 =>
              have := ih _ r3 hr2
              simp only [Option.some.injEq] at h
              subst h
              simp
              omega
      have := this fuel w _ hr
      simp only at this
      omega
  · simpa using h2.count

/-- Witness for `stop_drains_worker`: worker 0 of `threeConns` holds the
records at 300 and 100. -/
theorem stop_drains_worker_witness :
    WorkerOK threeConns 0 [300, 100] ∧
    ∃ w2, (∀ fuel, [300, 100].length ≤ fuel → drainLoop fuel threeConns 0 = some (w2, [300, 100])) ∧
      (∀ fuel, fuel < [300, 100].length → drainLoop fuel threeConns 0 = none) ∧
      [300, 100].Nodup ∧ (w2.threads 0).pHead = 0 ∧ (w2.threads 0).numOfFds = 0 ∧
      w2.allocated = threeConns.allocated.diff [300, 100] :=
  ⟨⟨by decide, by decide, by decide, by decide⟩,
    stop_drains_worker threeConns 0 [300, 100] ⟨by decide, by decide, by decide, by decide⟩⟩

/-! ### C4: closing a connection twice -/

theorem WorkerOK.live {w : World} {i : Nat} {l : List Nat} (hW : WorkerOK w i l) {p : Nat}
    (hp : p ∈ l) : Live w p i :=
  ⟨DList.ne_zero hW.chain p hp, (hW.owned p hp).1, (hW.owned p hp).2.1⟩

/-- The call `taosCleanUpFdObj(p)` tears a listed record down. -/
theorem cleanup_tornDown {w : World} {i : Nat} {l : List Nat} {p : Nat}
    (hW : WorkerOK w i l) (hp : p ∈ l) : TornDown w (taosCleanUpFdObj w p) i l p := by
  have hl := hW.live hp
  refine ⟨cleanup_workerOK hW hl hp, ?_, cleanup_mem_self hl, cleanup_allocated hl,
    cleanup_openFds hl, cleanup_calls hl⟩
  rw [cleanup_threads_owner hl]
  rfl

/-- C4. Idempotent close: for a live record `c` on the list `l` of its worker
`t`, the first call of `taosCloseTcpServerConnection` tears the record down and
leaves a zero signature in its block; the second call returns the state of the
first unchanged (so every list and count is as after the first call); and the
two calls together make no callback but the one terminal callback owed to `c`,
hence at most one. -/
theorem close_twice_is_close_once (w : World) (t : Nat) (l : List Nat) (c : Nat)
    (hW : WorkerOK w t l) (hc : c ∈ l) :
    TornDown w (taosCloseTcpServerConnection w c) t l c ∧
    ((taosCloseTcpServerConnection w c).mem c).signature = 0 ∧
    taosCloseTcpServerConnection (taosCloseTcpServerConnection w c) c
      = taosCloseTcpServerConnection w c ∧
    (taosCloseTcpServerConnection (taosCloseTcpServerConnection w c) c).calls
      = w.calls ++ terminalFor (w.threads t).shandle (w.mem c) ∧
    (terminalFor (w.threads t).shandle (w.mem c)).length ≤ 1 := by
  have hl := hW.live hc
  have h1 : taosCloseTcpServerConnection w c = taosCleanUpFdObj w c := by
    unfold taosCloseTcpServerConnection; rw [if_neg hl.ne_null]
  have hz : (taosCleanUpFdObj w c).mem c = SFdObj.zero := cleanup_mem_self hl
  have h2 : taosCloseTcpServerConnection (taosCleanUpFdObj w c) c = taosCleanUpFdObj w c := by
    unfold taosCloseTcpServerConnection
    rw [if_neg hl.ne_null]
    refine cleanup_not_live (Or.inr (Or.inl ?_))
    rw [hz]
    exact fun e => hl.ne_null e.symm
  rw [h1, h2]
  refine ⟨cleanup_tornDown hW hc, by rw [hz]; rfl, rfl, cleanup_calls hl, ?_⟩
  unfold terminalFor
  split_ifs <;> simp

/-- Witness for `close_twice_is_close_once`: the record at 300 of worker 0 in
`threeConns`. -/
theorem close_twice_is_close_once_witness :
    WorkerOK threeConns 0 [300, 100] ∧ 300 ∈ [300, 100] ∧
    taosCloseTcpServerConnection (taosCloseTcpServerConnection threeConns 300) 300
      = taosCloseTcpServerConnection threeConns 300 :=
  ⟨⟨by decide, by decide, by decide, by decide⟩, by decide,
    (close_twice_is_close_once threeConns 0 [300, 100] 300
      ⟨by decide, by decide, by decide, by decide⟩ (by decide)).2.2.1⟩

/-! ### C8 and C10: the frame-read step on short reads and undersized lengths -/

/-- A readable event whose reads do not complete a frame is a teardown. -/
theorem processEvent_incomplete {L : Layout} {w : World} {t p : Nat} {x : FrameIn}
    (h : ¬ x.complete L) : processEvent L w t (readable p) x = taosCleanUpFdObj w p := by
  unfold processEvent
  simp only [readable, Bool.false_eq_true, if_false]
  by_cases h1 : x.headRead.count = (L.headSize : Int)
  · by_cases h2 : x.mallocOk = false
    · simp [h1, h2]
    · have h3 : x.bodyRead.count ≠ leftLenOf L x.headRead.data := by
        intro e
        exact h ⟨h1, by simpa using h2, e⟩
      have h4 : wrap32 (decodeMsgLen L x.headRead.data - (L.headSize : Int)) ≠ x.bodyRead.count :=
        fun e => h3 e.symm
      simp [h1, h2, h4]
  · simp [h1]

/-- An error or hang-up event is a teardown. -/
theorem processEvent_errhup {L : Layout} {w : World} {t : Nat} {ev : EpollEvent} {x : FrameIn}
    (h : ev.epollerr = true ∨ ev.epollhup = true) :
    processEvent L w t ev x = taosCleanUpFdObj w ev.ptr := by
  unfold processEvent
  rcases h with h | h
  · simp [h]
  · by_cases h2 : ev.epollerr = true
    · simp [h2]
    · simp [h, h2]

/-- A readable event that completes a frame: the callback is invoked, its
result is stored, and the record is torn down when the result is null. -/
theorem processEvent_complete {L : Layout} {w : World} {t p : Nat} {x : FrameIn}
    (h : x.complete L) :
    processEvent L w t (readable p) x =
      let w2 := (w.addCall (frameInfo w t p (x.headRead.data ++ x.bodyRead.data)
          (decodeMsgLen L x.headRead.data))).setMem p ((w.mem p).setThandle x.cbRet)
      if x.cbRet = 0 then taosCleanUpFdObj w2 p else w2 := by
  obtain ⟨h1, h2, h3⟩ := h
  unfold processEvent
  have h4 : wrap32 (decodeMsgLen L x.headRead.data - (L.headSize : Int)) = x.bodyRead.count := by
    rw [h3]; rfl
  simp [readable, h1, h2, h4]

theorem wrap32_of_range {x : Int} (h1 : -2 ^ 31 ≤ x) (h2 : x < 2 ^ 31) : wrap32 x = x := by
  unfold wrap32 toInt32
  split_ifs <;> omega

/-- The callbacks a teardown makes are terminal: null payload, length 0. -/
theorem terminalFor_terminal (sh : Nat) (o : SFdObj) :
    ∀ c ∈ terminalFor sh o, c.msg = none ∧ c.msgLen = 0 ∧ c.thandle = o.thandle := by
  intro c hc
  unfold terminalFor at hc
  split_ifs at hc
  · simp at hc; subst hc; exact ⟨rfl, rfl, rfl⟩
  · simp at hc

/-- The declared length is an `int32_t`. -/
theorem decodeMsgLen_range (L : Layout) (rpcHead : List Nat) :
    -2 ^ 31 ≤ decodeMsgLen L rpcHead ∧ decodeMsgLen L rpcHead < 2 ^ 31 := by
  unfold decodeMsgLen toInt32
  split_ifs <;> omega

/-- A declared length so far below zero that `msgLen - headLen` leaves the
range of `int32_t` makes the argument of `malloc` negative: the allocator
returns `NULL`. -/
theorem mallocSound_refuses {L : Layout} {x : FrameIn} (hs : L.sane) (ha : x.mallocSound L)
    (h : decodeMsgLen L x.headRead.data < (L.headSize : Int) - 2 ^ 31) : x.mallocOk = false := by
  apply ha
  have hr := decodeMsgLen_range L x.headRead.data
  obtain ⟨h0, h1⟩ := hs
  unfold mallocArg
  rw [wrap32_of_range (by omega) (by omega)]
  omega

/-- C8. Short reads are terminal: when a readable event arrives for a listed
record `p` and the header read returns a count other than the header size, or
the body read returns a count other than `msgLen` minus the header size, the
handler tears the record down: `p` leaves the list of its worker, the count
drops by exactly one, and the only callbacks made are terminal ones; when the
record stores no upper handle no callback is made at all.  The allocator
returns `NULL` when the size it is asked for, `msgLen + tsRpcOverhead`, is
negative, and the reserved prelude is a size (`Layout.sane`). -/
theorem short_read_tears_down (L : Layout) (w : World) (i : Nat) (l : List Nat) (p t : Nat)
    (x : FrameIn) (hW : WorkerOK w i l) (hp : p ∈ l)
    (hs : L.sane) (ha : x.mallocSound L)
    (hshort : x.headRead.count ≠ (L.headSize : Int) ∨
      x.bodyRead.count ≠ decodeMsgLen L x.headRead.data - (L.headSize : Int)) :
    TornDown w (processEvent L w t (readable p) x) i l p ∧
    (∃ cs, (processEvent L w t (readable p) x).calls = w.calls ++ cs ∧
      ∀ c ∈ cs, c.msg = none ∧ c.msgLen = 0) ∧
    ((w.mem p).thandle = 0 → (processEvent L w t (readable p) x).calls = w.calls) := by
  have hnc : ¬ x.complete L := by
    rintro ⟨h1, h2, h3⟩
    rcases hshort with h | h
    · exact h h1
    · by_cases hfit : (L.headSize : Int) - 2 ^ 31 ≤ decodeMsgLen L x.headRead.data
      · have hr := decodeMsgLen_range L x.headRead.data
        have hw : leftLenOf L x.headRead.data
            = decodeMsgLen L x.headRead.data - (L.headSize : Int) := by
          unfold leftLenOf
          exact wrap32_of_range (by omega) (by omega)
        exact h (h3.trans hw)
      · have h4 := mallocSound_refuses hs ha (not_le.1 hfit)
        rw [h2] at h4
        exact absurd h4 (by decide)
  rw [processEvent_incomplete hnc]
  have hT := cleanup_tornDown hW hp
  refine ⟨hT, ⟨_, hT.calls, fun c hc => ?_⟩, fun h0 => ?_⟩
  · exact ⟨(terminalFor_terminal _ _ c hc).1, (terminalFor_terminal _ _ c hc).2.1⟩
  · rw [hT.calls]
    simp [terminalFor, h0]

/-- Witness for `short_read_tears_down`: half a header arrives for the record
at 300 of `threeConns`. -/
theorem short_read_tears_down_witness :
    WorkerOK threeConns 0 [300, 100] ∧ 300 ∈ [300, 100] ∧
    sampleLayout.sane ∧ halfHeader.mallocSound sampleLayout ∧
    (halfHeader.headRead.count ≠ (sampleLayout.headSize : Int) ∨
      halfHeader.bodyRead.count ≠
        decodeMsgLen sampleLayout halfHeader.headRead.data - (sampleLayout.headSize : Int)) ∧
    TornDown threeConns (processEvent sampleLayout threeConns 0 (readable 300) halfHeader)
      0 [300, 100] 300 :=
  ⟨⟨by decide, by decide, by decide, by decide⟩, by decide, by decide, by decide, by decide,
    (short_read_tears_down sampleLayout threeConns 0 [300, 100] 300 0 halfHeader
      ⟨by decide, by decide, by decide, by decide⟩ (by decide) (by decide) (by decide)
      (by decide)).1⟩

/-- C10. Undersized or negative declared length is rejected: a readable event
arrives for a listed record `p`, the body read returns a count between 0 and
`max(n, 0)` when asked for `n` bytes, and the header declares a `msgLen` that
is, as a signed 32-bit number, smaller than the header size (every value with
the top bit set included).  Then the handler makes no non-terminal callback
and tears the record down.  The allocator returns `NULL` when the size it is
asked for, `msgLen + tsRpcOverhead`, is negative, and the reserved prelude is
a size (`Layout.sane`). -/
theorem undersized_length_rejected (L : Layout) (w : World) (i : Nat) (l : List Nat)
    (p t : Nat) (x : FrameIn) (hW : WorkerOK w i l) (hp : p ∈ l)
    (hs : L.sane) (ha : x.mallocSound L)
    (hread : 0 ≤ x.bodyRead.count ∧ x.bodyRead.count ≤ max (leftLenOf L x.headRead.data) 0)
    (hlen : decodeMsgLen L x.headRead.data < (L.headSize : Int)) :
    TornDown w (processEvent L w t (readable p) x) i l p ∧
    ∃ cs, (processEvent L w t (readable p) x).calls = w.calls ++ cs ∧
      ∀ c ∈ cs, c.msg = none ∧ c.msgLen = 0 := by
  have hnc : ¬ x.complete L := by
    rintro ⟨_, h2, h3⟩
    by_cases hfit : (L.headSize : Int) - 2 ^ 31 ≤ decodeMsgLen L x.headRead.data
    · have hw : leftLenOf L x.headRead.data
          = decodeMsgLen L x.headRead.data - (L.headSize : Int) := by
        unfold leftLenOf
        exact wrap32_of_range (by omega) (by omega)
      rw [h3, hw] at hread
      omega
    · have h4 := mallocSound_refuses hs ha (not_le.1 hfit)
      rw [h2] at h4
      exact absurd h4 (by decide)
  rw [processEvent_incomplete hnc]
  have hT := cleanup_tornDown hW hp
  exact ⟨hT, _, hT.calls, fun c hc =>
    ⟨(terminalFor_terminal _ _ c hc).1, (terminalFor_terminal _ _ c hc).2.1⟩⟩

/-- Witness for `undersized_length_rejected`: the header of the record at 300
of `threeConns` declares `msgLen = -2^31`, a value with the top bit set. -/
theorem undersized_length_rejected_witness :
    WorkerOK threeConns 0 [300, 100] ∧ 300 ∈ [300, 100] ∧
    sampleLayout.sane ∧ refusedLength.mallocSound sampleLayout ∧
    (0 ≤ refusedLength.bodyRead.count ∧
      refusedLength.bodyRead.count ≤ max (leftLenOf sampleLayout refusedLength.headRead.data) 0) ∧
    decodeMsgLen sampleLayout refusedLength.headRead.data = -2147483648 ∧
    decodeMsgLen sampleLayout refusedLength.headRead.data < (sampleLayout.headSize : Int) ∧
    TornDown threeConns (processEvent sampleLayout threeConns 0 (readable 300) refusedLength)
      0 [300, 100] 300 :=
  ⟨⟨by decide, by decide, by decide, by decide⟩, by decide, by decide, by decide, by decide,
    by decide, by decide,
    (undersized_length_rejected sampleLayout threeConns 0 [300, 100] 300 0 refusedLength
      ⟨by decide, by decide, by decide, by decide⟩ (by decide) (by decide) (by decide)
      (by decide) (by decide)).1⟩

/-- A declared length between 0 and the header size is rejected as well: the
header declares `msgLen = 4`, the body read is asked for `-4` bytes and returns
0, and the record is torn down without a callback. -/
theorem tiny_length_rejected :
    decodeMsgLen sampleLayout tinyLength.headRead.data = 4 ∧
    WorkerOK (processEvent sampleLayout threeConns 0 (readable 300) tinyLength) 0 [100] ∧
    (processEvent sampleLayout threeConns 0 (readable 300) tinyLength).calls = [] :=
  ⟨by decide, ⟨by decide, by decide, by decide, by decide⟩, by decide⟩

/-- The refusal of the allocator is what rejects a declared length below
`headSize - 2^31`.  Were `malloc` to hand out a block for the negative size
`-2^31 + 16` (an answer `FrameIn.mallocSound` excludes), `leftLen` would wrap
around to `2^31 - 8`, a peer that sends that many bytes would complete the
frame, and the handler would invoke the callback with `msgLen = -2^31`. -/
theorem wrapped_length_needs_refusal :
    decodeMsgLen sampleLayout wrappedLength.headRead.data = -2147483648 ∧
    mallocArg sampleLayout wrappedLength.headRead.data = -2147483632 ∧
    ¬ wrappedLength.mallocSound sampleLayout ∧
    leftLenOf sampleLayout wrappedLength.headRead.data = 2147483640 ∧
    ((processEvent sampleLayout threeConns 0 (readable 300) wrappedLength).calls.map
      (fun c => (c.msg.isSome, c.msgLen, c.chandle))) = [(true, -2147483648, 300)] := by
  refine ⟨by decide, by decide, by decide, by decide, by decide⟩

/-! ### C1: frames on one connection -/

/-- A completed frame whose callback returns a handle: the call is recorded
and the handle stored; nothing else changes. -/
theorem processEvent_stored {L : Layout} {w : World} {t p : Nat} {x : FrameIn}
    (h : x.complete L) (hr : x.cbRet ≠ 0) :
    processEvent L w t (readable p) x =
      (w.addCall (frameInfo w t p (x.headRead.data ++ x.bodyRead.data)
          (decodeMsgLen L x.headRead.data))).setMem p ((w.mem p).setThandle x.cbRet) := by
  rw [processEvent_complete h]
  simp only [if_neg hr]

/-- The effect of a run of completed frames whose callbacks all return a
handle. -/
theorem frames_spec (L : Layout) (t p : Nat) : ∀ (xs : List FrameIn) (w : World),
    (∀ x ∈ xs, x.complete L ∧ x.cbRet ≠ 0) →
    (taosProcessTcpData L w t (frameEvents p xs)).calls =
      w.calls ++ frameCalls L (w.threads t).shandle (w.mem p).ip (w.mem p).port p
        (w.mem p).thandle xs ∧
    (taosProcessTcpData L w t (frameEvents p xs)).mem p =
      (w.mem p).setThandle (lastHandle (w.mem p).thandle xs) ∧
    (∀ q, q ≠ p → (taosProcessTcpData L w t (frameEvents p xs)).mem q = w.mem q) ∧
    (taosProcessTcpData L w t (frameEvents p xs)).threads = w.threads ∧
    (taosProcessTcpData L w t (frameEvents p xs)).allocated = w.allocated ∧
    (taosProcessTcpData L w t (frameEvents p xs)).openFds = w.openFds ∧
    (taosProcessTcpData L w t (frameEvents p xs)).numOfThreads = w.numOfThreads
  | [], w, _ => by
    simp [taosProcessTcpData, frameEvents, frameCalls, lastHandle, SFdObj.setThandle]
  | x :: xs, w, h => by
    have hx := h x (List.mem_cons_self _ _)
    have ih := frames_spec L t p xs
      ((w.addCall (frameInfo w t p (x.headRead.data ++ x.bodyRead.data)
          (decodeMsgLen L x.headRead.data))).setMem p ((w.mem p).setThandle x.cbRet))
      (fun y hy => h y (List.mem_cons_of_mem _ hy))
    have hstep : taosProcessTcpData L w t (frameEvents p (x :: xs)) =
        taosProcessTcpData L ((w.addCall (frameInfo w t p (x.headRead.data ++ x.bodyRead.data)
          (decodeMsgLen L x.headRead.data))).setMem p ((w.mem p).setThandle x.cbRet)) t
          (frameEvents p xs) := by
      simp only [taosProcessTcpData, frameEvents, List.map_cons, List.foldl_cons]
      rw [processEvent_stored hx.1 hx.2]
    rw [hstep]
    obtain ⟨e1, e2, e3, e4, e5, e6, e7⟩ := ih
    simp only [World.setMem_calls, World.addCall_calls, World.setMem_mem, World.addCall_mem,
      Mem.set_same, World.setMem_threads, World.addCall_threads, SFdObj.setThandle_ip,
      SFdObj.setThandle_port, SFdObj.setThandle_thandle, World.setMem_allocated,
      World.addCall_allocated, World.setMem_openFds, World.addCall_openFds,
      World.setMem_numOfThreads, World.addCall_numOfThreads] at e1 e2 e3 e4 e5 e6 e7
    refine ⟨?_, ?_, ?_, e4, e5, e6, e7⟩
    · rw [e1, List.append_assoc]
      rfl
    · rw [e2]
      rfl
    · intro q hq
      rw [e3 q hq, Mem.set_other _ _ hq]

theorem Frame.decode_eq {L : Layout} {f : Frame} (h : f.wellFormed L) :
    decodeMsgLen L f.header = f.msgLen L := by
  obtain ⟨_, h2, h3⟩ := h
  unfold decodeMsgLen Frame.msgLen toInt32
  rw [h2]
  have : (L.headSize + f.body.length) % 2 ^ 32 = L.headSize + f.body.length :=
    Nat.mod_eq_of_lt (by omega)
  rw [this, if_pos h3]

theorem Frame.readIn_complete {L : Layout} {f : Frame} (h : f.wellFormed L) (r : Nat) :
    (f.readIn L true r).complete L := by
  refine ⟨rfl, rfl, ?_⟩
  show (f.body.length : Int) = leftLenOf L f.header
  unfold leftLenOf
  rw [Frame.decode_eq h]
  have h3 := h.2.2
  unfold Frame.msgLen
  rw [wrap32_of_range (by push_cast; omega) (by push_cast; omega)]
  push_cast
  omega

/-- C1 (as amended). Round-trip framing: for every finite sequence of
well-formed frames on one connection, if the read helper returns every byte
asked for, every allocation of a message buffer succeeds and the callback
returns a non-null handle each time, then the handler invokes the callback
once per frame, in wire order, with `msgLen` equal to the total length the
frame declares and with a payload equal to the header bytes followed by the
body bytes (and with the record of the connection as `chandle`). -/
theorem framing_round_trip (L : Layout) (w : World) (t p : Nat) (frs : List (Frame × Nat))
    (hwf : ∀ fr ∈ frs, fr.1.wellFormed L ∧ fr.2 ≠ 0) :
    ∃ cs, (taosProcessTcpData L w t
        (frameEvents p (frs.map (fun fr => fr.1.readIn L true fr.2)))).calls = w.calls ++ cs ∧
      cs.map (fun c => (c.msg, c.msgLen, c.chandle)) =
        frs.map (fun fr => (some (fr.1.header ++ fr.1.body), fr.1.msgLen L, p)) := by
  have hc : ∀ x ∈ frs.map (fun fr => fr.1.readIn L true fr.2), x.complete L ∧ x.cbRet ≠ 0 := by
    intro x hx
    obtain ⟨fr, hfr, rfl⟩ := List.mem_map.1 hx
    exact ⟨Frame.readIn_complete (hwf fr hfr).1 fr.2, (hwf fr hfr).2⟩
  refine ⟨_, (frames_spec L t p _ w hc).1, ?_⟩
  generalize (w.threads t).shandle = sh
  generalize (w.mem p).ip = ip
  generalize (w.mem p).port = port
  generalize (w.mem p).thandle = h0
  clear hc
  induction frs generalizing h0 with
  | nil => rfl
  | cons fr frs ih =>
    have h1 := (hwf fr (List.mem_cons_self _ _)).1
    simp only [List.map_cons, frameCalls]
    rw [ih (fun g hg => hwf g (List.mem_cons_of_mem _ hg))]
    simp [Frame.readIn, Frame.decode_eq h1]

/-- Witness for `framing_round_trip`: the frames `"A"` and `"BB"` on the record
at 300 of `threeConns`. -/
theorem framing_round_trip_witness :
    (∀ fr ∈ [(frameA, 7), (frameBB, 7)], fr.1.wellFormed sampleLayout ∧ fr.2 ≠ 0) ∧
    ∃ cs, (taosProcessTcpData sampleLayout threeConns 0
        (frameEvents 300 ([(frameA, 7), (frameBB, 7)].map
          (fun fr => fr.1.readIn sampleLayout true fr.2)))).calls = threeConns.calls ++ cs ∧
      cs.map (fun c => (c.msg, c.msgLen, c.chandle)) =
        [(frameA, 7), (frameBB, 7)].map
          (fun fr => (some (fr.1.header ++ fr.1.body), fr.1.msgLen sampleLayout, 300)) :=
  ⟨by decide, framing_round_trip sampleLayout threeConns 0 300 [(frameA, 7), (frameBB, 7)]
    (by decide)⟩

/-- Counterexample to C1 as stated: the frame `"A"` is well-formed, the read
helper returns every byte it is asked for and the callback would return the
non-null handle 7, but the allocation of the message buffer fails; the
callback is not invoked for the frame and the record is torn down. -/
theorem framing_counterexample :
    frameA.wellFormed sampleLayout ∧
    (frameA.readIn sampleLayout false 7).headRead.count = (sampleLayout.headSize : Int) ∧
    (frameA.readIn sampleLayout false 7).cbRet ≠ 0 ∧
    WorkerOK threeConns 0 [300, 100] ∧
    (taosProcessTcpData sampleLayout threeConns 0
      (frameEvents 300 [frameA.readIn sampleLayout false 7])).calls = [] ∧
    WorkerOK (taosProcessTcpData sampleLayout threeConns 0
      (frameEvents 300 [frameA.readIn sampleLayout false 7])) 0 [100] := by
  refine ⟨by decide, by decide, by decide, ⟨by decide, by decide, by decide, by decide⟩,
    by decide, ⟨by decide, by decide, by decide, by decide⟩⟩

/-! ### C5: round-robin assignment -/

theorem assignedFrom_consAt (N k p : Nat) (ps : List Nat) (ls : Nat → List Nat) (i : Nat) :
    assignedFrom N i (k + 1) ps ++ consAt ls (k % N) p i
      = assignedFrom N i k (p :: ps) ++ ls i := by
  unfold consAt
  by_cases h : i = k % N
  · subst h; simp [assignedFrom]
  · have h2 : ¬ k % N = i := fun e => h e.symm
    simp [assignedFrom, h, h2]

/-- The lists after a run of the acceptor. -/
theorem accept_run_inv : ∀ (as : List AcceptIn) (w : World) (ls : Nat → List Nat) (k : Nat),
    Inv w ls → 0 < w.numOfThreads → w.threadId = k % w.numOfThreads → ValidAccepts w as →
    Inv (taosAcceptTcpConnection w as)
        (fun i => assignedFrom w.numOfThreads i k (admittedPtrs as) ++ ls i) ∧
      (taosAcceptTcpConnection w as).numOfThreads = w.numOfThreads
  | [], w, ls, k, hI, _, _, _ => by
    simpa [taosAcceptTcpConnection, admittedPtrs, assignedFrom] using hI
  | a :: as, w, ls, k, hI, hN, ht, hv => by
    obtain ⟨hfresh, hv⟩ := hv
    have hrun : taosAcceptTcpConnection w (a :: as)
        = taosAcceptTcpConnection (acceptLoopBody w a) as := rfl
    rw [hrun]
    by_cases ha : a.admitted
    · have hr := accept_rest (w := w) ha
      have hp : admittedPtrs (a :: as) = a.mallocRet :: admittedPtrs as := by
        simp [admittedPtrs, List.filter_cons, ha]
      have htl : w.threadId < w.numOfThreads := by rw [ht]; exact Nat.mod_lt _ hN
      have hI1 := accept_inv hI ha (hfresh ha.1 ha.2.1) htl
      have ht1 : (acceptLoopBody w a).threadId = (k + 1) % (acceptLoopBody w a).numOfThreads := by
        rw [hr.2.2.1, hr.2.1, ht]
        exact Nat.add_mod_mod _ _ _ ▸ (Nat.mod_add_mod k w.numOfThreads 1)
      obtain ⟨h1, h2⟩ := accept_run_inv as _ _ (k + 1) hI1 (by rw [hr.2.1]; exact hN) ht1 hv
      refine ⟨?_, h2.trans hr.2.1⟩
      have hfun : (fun i => assignedFrom (acceptLoopBody w a).numOfThreads i (k + 1)
            (admittedPtrs as) ++ consAt ls w.threadId a.mallocRet i)
          = (fun i => assignedFrom w.numOfThreads i k (admittedPtrs (a :: as)) ++ ls i) := by
        funext i
        rw [hr.2.1, hp, ht, assignedFrom_consAt]
      rw [← hfun]
      exact h1
    · obtain ⟨hI1, ht1, hN1⟩ := accept_rejected_inv hI ha hfresh
      have hp : admittedPtrs (a :: as) = admittedPtrs as := by
        simp [admittedPtrs, List.filter_cons, ha]
      obtain ⟨h1, h2⟩ := accept_run_inv as _ _ k hI1 (by rw [hN1]; exact hN)
        (by rw [ht1, hN1]; exact ht) hv
      rw [hN1] at h1
      rw [hp]
      exact ⟨h1, h2.trans hN1⟩

theorem assignedFrom_mem (N : Nat) : ∀ (ps : List Nat) (k j : Nat) (hj : j < ps.length),
    ps.get ⟨j, hj⟩ ∈ assignedFrom N ((k + j) % N) k ps
  | [], _, j, hj => by simp at hj
  | p :: ps, k, 0, _ => by simp [assignedFrom]
  | p :: ps, k, j + 1, hj => by
    have ih := assignedFrom_mem N ps (k + 1) j (by simpa using hj)
    have e : (k + 1 + j) % N = (k + (j + 1)) % N := by rw [Nat.add_assoc, Nat.add_comm 1 j]
    rw [e] at ih
    simp only [List.get_cons_succ, assignedFrom]
    split_ifs
    · exact List.mem_append_left _ ih
    · exact ih

theorem assignedFrom_length (N i : Nat) : ∀ (ps : List Nat) (k : Nat),
    (assignedFrom N i k ps).length + Nat.count (fun j => j % N = i) k
      = Nat.count (fun j => j % N = i) (k + ps.length)
  | [], k => by simp [assignedFrom]
  | p :: ps, k => by
    have ih := assignedFrom_length N i ps (k + 1)
    have e : k + (p :: ps).length = k + 1 + ps.length := by simp; omega
    rw [e, ← ih, Nat.count_succ]
    simp only [assignedFrom]
    split_ifs
    · simp; omega
    · simp

/-- With `K` records dealt out to `N` workers, worker `i` holds
`K / N` records, and one more when `i < K mod N`. -/
theorem assignedFrom_card {N i : Nat} (hi : i < N) (ps : List Nat) :
    (assignedFrom N i 0 ps).length = ps.length / N + if i < ps.length % N then 1 else 0 := by
  have h := assignedFrom_length N i ps 0
  simp only [Nat.count_zero, Nat.add_zero, Nat.zero_add] at h
  rw [h]
  have hN : 0 < N := Nat.lt_of_le_of_lt (Nat.zero_le _) hi
  have hc := Nat.count_modEq_card ps.length hN i
  rw [Nat.mod_eq_of_lt hi] at hc
  rw [← hc]
  congr 1
  funext j
  simp [Nat.ModEq, Nat.mod_eq_of_lt hi]

theorem floor_or_ceil {N i K : Nat} (hi : i < N) :
    (K / N + if i < K % N then 1 else 0) = K / N ∨
      (K / N + if i < K % N then 1 else 0) = (K + N - 1) / N := by
  have hN : 0 < N := Nat.lt_of_le_of_lt (Nat.zero_le _) hi
  by_cases h : i < K % N
  · right
    rw [if_pos h]
    have h1 : K % N < N := Nat.mod_lt _ hN
    have h2 : K + N - 1 = (K % N - 1) + N * (K / N + 1) := by
      have := Nat.div_add_mod K N
      have h3 : N * (K / N + 1) = N * (K / N) + N := by ring
      omega
    have h4 : (K % N - 1) / N = 0 := Nat.div_eq_of_lt (by omega)
    rw [h2, Nat.add_mul_div_left _ _ hN, h4]
    omega
  · left
    rw [if_neg h]
    rfl

/-- An iteration that does not reach the list push leaves no descriptor open
behind it and does not move the acceptor on: the descriptor `accept` returned
is closed again before the `continue`. -/
theorem accept_rejected_rest {w : World} {a : AcceptIn} (h : ¬ a.admitted) :
    (acceptLoopBody w a).openFds = w.openFds ∧
      (acceptLoopBody w a).threadId = w.threadId ∧
      (acceptLoopBody w a).numOfThreads = w.numOfThreads := by
  unfold acceptLoopBody
  by_cases h1 : a.connFd < 0
  · simp [h1]
  · by_cases h2 : a.mallocRet = 0
    · simp [h1, h2]
    · have h3 : a.epollCtlRet < 0 := by
        by_contra h3
        exact h ⟨not_lt.1 h1, h2, not_lt.1 h3⟩
      simp [h1, h2, h3]

/-- The open descriptors and the position of the acceptor after a run. -/
theorem accept_run_rest : ∀ (as : List AcceptIn) (w : World) (k : Nat),
    w.threadId = k % w.numOfThreads →
    (taosAcceptTcpConnection w as).openFds = (admittedFds as).reverse ++ w.openFds ∧
      (taosAcceptTcpConnection w as).threadId
        = (k + (admittedPtrs as).length) % w.numOfThreads
  | [], w, k, ht => by
    simpa [taosAcceptTcpConnection, admittedFds, admittedPtrs] using ht
  | a :: as, w, k, ht => by
    have hrun : taosAcceptTcpConnection w (a :: as)
        = taosAcceptTcpConnection (acceptLoopBody w a) as := rfl
    rw [hrun]
    by_cases ha : a.admitted
    · have hr := accept_rest (w := w) ha
      have ht1 : (acceptLoopBody w a).threadId = (k + 1) % (acceptLoopBody w a).numOfThreads := by
        rw [hr.2.2.1, hr.2.1, ht]
        exact Nat.add_mod_mod _ _ _ ▸ (Nat.mod_add_mod k w.numOfThreads 1)
      obtain ⟨h1, h2⟩ := accept_run_rest as _ (k + 1) ht1
      rw [h1, h2, hr.2.1, hr.2.2.2.2.1]
      constructor
      · simp [admittedFds, List.filter_cons, ha]
      · congr 1
        simp [admittedPtrs, List.filter_cons, ha]
        omega
    · obtain ⟨hfd, ht1, hN1⟩ := accept_rejected_rest (w := w) ha
      obtain ⟨h1, h2⟩ := accept_run_rest as _ k (by rw [ht1, hN1]; exact ht)
      rw [h1, h2, hfd, hN1]
      constructor
      · simp [admittedFds, List.filter_cons, ha]
      · simp [admittedPtrs, List.filter_cons, ha]

/-- C5 (as amended). Round-robin assignment: from freshly initialised workers
with the acceptor at `threadId = 0`, after the acceptor loop has run over any
sequence of accept outcomes (failed `accept`, failed record allocation and
failed readiness-set registration included) and no connection has been torn
down, let `K` be the number of connections that reached the list push.  The
`k`-th of these (0-based) is in the list of worker `k mod N`; the list of
worker `i` holds exactly the records dealt to it, its count equals the length
of the list, and that length is `floor(K/N)` or `ceil(K/N)`.  A connection
whose record allocation or registration fails is closed (the descriptors the
run leaves open are those of the `K` connections, the latest first, on top of
the ones open before), is on no list, and does not advance `threadId` (which
ends at `K mod N`). -/
theorem round_robin_over_admitted (w : World) (as : List AcceptIn)
    (hf : Fresh w) (hv : ValidAccepts w as) :
    (∀ i, i < w.numOfThreads →
      WorkerOK (taosAcceptTcpConnection w as) i
        (assignedFrom w.numOfThreads i 0 (admittedPtrs as)) ∧
      ((assignedFrom w.numOfThreads i 0 (admittedPtrs as)).length
          = (admittedPtrs as).length / w.numOfThreads ∨
        (assignedFrom w.numOfThreads i 0 (admittedPtrs as)).length
          = ((admittedPtrs as).length + w.numOfThreads - 1) / w.numOfThreads)) ∧
    (∀ k (hk : k < (admittedPtrs as).length),
      (admittedPtrs as).get ⟨k, hk⟩
        ∈ assignedFrom w.numOfThreads (k % w.numOfThreads) 0 (admittedPtrs as)) ∧
    (taosAcceptTcpConnection w as).openFds = (admittedFds as).reverse ++ w.openFds ∧
    (taosAcceptTcpConnection w as).threadId = (admittedPtrs as).length % w.numOfThreads := by
  have ht : w.threadId = 0 % w.numOfThreads := by rw [hf.threadId, Nat.zero_mod]
  obtain ⟨hI, hN⟩ := accept_run_inv as w _ 0 hf.inv hf.workers ht hv
  obtain ⟨hfd, hid⟩ := accept_run_rest as w 0 ht
  refine ⟨?_, ?_, hfd, by rw [hid, Nat.zero_add]⟩
  · intro i hi
    have hW := hI i (by rw [hN]; exact hi)
    simp only [List.append_nil] at hW
    refine ⟨hW, ?_⟩
    rw [assignedFrom_card hi]
    exact floor_or_ceil hi
  · intro k hk
    have := assignedFrom_mem w.numOfThreads (admittedPtrs as) 0 k hk
    rwa [Nat.zero_add] at this

/-- Witness for `round_robin_over_admitted`: three workers, six admissions
with a failed record allocation in between; the descriptor 12 of the failed
one is closed. -/
theorem round_robin_over_admitted_witness :
    Fresh (started 3) ∧
    ValidAccepts (started 3) [admitIn 10 100, admitIn 11 200, allocFailIn 12, admitIn 13 300,
      admitIn 14 400, admitIn 15 500, admitIn 16 600] ∧
    WorkerOK (taosAcceptTcpConnection (started 3) [admitIn 10 100, admitIn 11 200,
      allocFailIn 12, admitIn 13 300, admitIn 14 400, admitIn 15 500, admitIn 16 600]) 1
      (assignedFrom (started 3).numOfThreads 1 0 (admittedPtrs [admitIn 10 100, admitIn 11 200,
        allocFailIn 12, admitIn 13 300, admitIn 14 400, admitIn 15 500, admitIn 16 600])) ∧
    assignedFrom (started 3).numOfThreads 1 0 (admittedPtrs [admitIn 10 100, admitIn 11 200,
        allocFailIn 12, admitIn 13 300, admitIn 14 400, admitIn 15 500, admitIn 16 600])
      = [500, 200] ∧
    (admittedFds [admitIn 10 100, admitIn 11 200, allocFailIn 12, admitIn 13 300,
      admitIn 14 400, admitIn 15 500, admitIn 16 600]).reverse = [16, 15, 14, 13, 11, 10] :=
  ⟨⟨by decide, by decide, fun _ => rfl, by decide⟩, by decide,
    ((round_robin_over_admitted (started 3) [admitIn 10 100, admitIn 11 200, allocFailIn 12,
      admitIn 13 300, admitIn 14 400, admitIn 15 500, admitIn 16 600]
      ⟨by decide, by decide, fun _ => rfl, by decide⟩ (by decide)).1 1 (by decide)).1,
    by decide, by decide⟩

/-- Counterexample to C5 as stated: two workers, two accepted connections, the
record allocation of the first fails.  The acceptor does not advance
`threadId` for the failed one, so the second accepted connection (`k = 1`) is
put on the list of worker 0, not of worker `1 mod 2`, and worker 1 holds no
connection although `floor(2/2) = ceil(2/2) = 1`. -/
theorem round_robin_counterexample :
    Fresh (started 2) ∧ ValidAccepts (started 2) [allocFailIn 10, admitIn 11 100] ∧
    ([allocFailIn 10, admitIn 11 100].filter (fun a => decide (0 ≤ a.connFd))).length = 2 ∧
    WorkerOK (taosAcceptTcpConnection (started 2) [allocFailIn 10, admitIn 11 100]) 0 [100] ∧
    WorkerOK (taosAcceptTcpConnection (started 2) [allocFailIn 10, admitIn 11 100]) 1 [] ∧
    ((taosAcceptTcpConnection (started 2) [allocFailIn 10, admitIn 11 100]).threads 1).numOfFds
      = 0 ∧
    2 / 2 = 1 ∧ (2 + 2 - 1) / 2 = 1 :=
  ⟨⟨by decide, by decide, fun _ => rfl, by decide⟩, by decide, by decide,
    ⟨by decide, by decide, by decide, by decide⟩, ⟨by decide, by decide, by decide, by decide⟩,
    by decide, by decide, by decide⟩

/-! ### C3: terminal callbacks -/

/-- Storing a handle in a listed record keeps the list of its worker. -/
theorem WorkerOK.of_agree {w w2 : World} {i : Nat} {l : List Nat} (hW : WorkerOK w i l)
    (ht : w2.threads = w.threads) (ha : w2.allocated = w.allocated)
    (hm : ∀ q, (w2.mem q).signature = (w.mem q).signature ∧
      (w2.mem q).pThreadObj = (w.mem q).pThreadObj ∧
      (w2.mem q).prev = (w.mem q).prev ∧ (w2.mem q).next = (w.mem q).next) :
    WorkerOK w2 i l := by
  refine ⟨?_, hW.nodup, by rw [ht]; exact hW.count, ?_⟩
  · rw [ht]
    exact DList.congr (fun q _ => ⟨(hm q).2.2.1, (hm q).2.2.2⟩) hW.chain
  · intro q hq
    rw [(hm q).1, (hm q).2.1, ha]
    exact hW.owned q hq

theorem frames_workerOK {L : Layout} {w : World} {t p i : Nat} {l : List Nat} {xs : List FrameIn}
    (hW : WorkerOK w i l) (hxs : ∀ x ∈ xs, x.complete L ∧ x.cbRet ≠ 0) :
    WorkerOK (taosProcessTcpData L w t (frameEvents p xs)) i l := by
  obtain ⟨_, e2, e3, e4, e5, _, _⟩ := frames_spec L t p xs w hxs
  refine hW.of_agree e4 e5 (fun q => ?_)
  by_cases hq : q = p
  · subst hq; rw [e2]; exact ⟨rfl, rfl, rfl, rfl⟩
  · rw [e3 q hq]; exact ⟨rfl, rfl, rfl, rfl⟩

theorem lastHandle_ne_zero : ∀ (xs : List FrameIn) (h : Nat), (∀ x ∈ xs, x.cbRet ≠ 0) →
    (lastHandle h xs ≠ 0 ↔ (xs ≠ [] ∨ h ≠ 0))
  | [], h, _ => by simp [lastHandle]
  | x :: xs, h, hx => by
    have ih := lastHandle_ne_zero xs x.cbRet (fun y hy => hx y (List.mem_cons_of_mem _ hy))
    simp only [lastHandle, ih]
    have := hx x (List.mem_cons_self _ _)
    simp [this]

theorem terminalCalls_append (mem : Mem) (sh : Nat) (l1 l2 : List Nat) :
    terminalCalls mem sh (l1 ++ l2) = terminalCalls mem sh l1 ++ terminalCalls mem sh l2 := by
  simp [terminalCalls]

theorem terminalCalls_single (mem : Mem) (sh p : Nat) :
    terminalCalls mem sh [p] = terminalFor sh (mem p) := by
  unfold terminalCalls terminalFor
  by_cases h : (mem p).thandle = 0
  · simp [h]
  · simp [h]

/-- C3 (as amended). A listed record `p` is admitted with no handle stored;
`xs` are the frames completed on it so far, each with a callback that returned
a non-null handle, so that the record stores the handle returned by the most
recent callback (`lastHandle 0 xs`, null exactly when there was no frame).
However teardown is then reached, a terminal callback (null payload, length 0,
`thandle` = the stored handle) is delivered if and only if the handle stored
when teardown starts is non-null:
* on an error or hang-up event, on a short header read, a failed buffer
  allocation or a short body read, on `taosCloseTcpServerConnection`, and for
  the part of the drain loop of `taosCleanUpTcpServer` that concerns `p`, the
  callbacks made for `p` are exactly `terminalFor`, that is one terminal
  callback when a handle is stored and none otherwise;
* when the callback of a further completed frame returns null, that null is
  stored first, so the only callback made is the non-terminal one for the
  frame and no terminal callback follows, whatever earlier callbacks returned.
-/
theorem terminal_callback_iff_stored (L : Layout) (w : World) (i : Nat) (l : List Nat)
    (p t : Nat) (xs : List FrameIn) (hW : WorkerOK w i l) (hp : p ∈ l)
    (h0 : (w.mem p).thandle = 0) (hxs : ∀ x ∈ xs, x.complete L ∧ x.cbRet ≠ 0) :
    ((afterFrames L w t p xs).mem p).thandle = lastHandle 0 xs ∧
    (lastHandle 0 xs ≠ 0 ↔ xs ≠ []) ∧
    (terminalFor ((afterFrames L w t p xs).threads i).shandle ((afterFrames L w t p xs).mem p)
      = if lastHandle 0 xs ≠ 0
        then [terminalInfo ((afterFrames L w t p xs).threads i).shandle (lastHandle 0 xs)]
        else []) ∧
    (∀ ev x, ev.ptr = p → (ev.epollerr = true ∨ ev.epollhup = true) →
      TornDown (afterFrames L w t p xs)
        (processEvent L (afterFrames L w t p xs) t ev x) i l p) ∧
    (∀ x, ¬ x.complete L →
      TornDown (afterFrames L w t p xs)
        (processEvent L (afterFrames L w t p xs) t (readable p) x) i l p) ∧
    TornDown (afterFrames L w t p xs)
      (taosCloseTcpServerConnection (afterFrames L w t p xs) p) i l p ∧
    (∃ w2 l1 l2, l = l1 ++ p :: l2 ∧
      drainLoop l.length (afterFrames L w t p xs) i = some (w2, l) ∧
      w2.calls = (afterFrames L w t p xs).calls
        ++ terminalCalls (afterFrames L w t p xs).mem
            ((afterFrames L w t p xs).threads i).shandle l1
        ++ terminalFor ((afterFrames L w t p xs).threads i).shandle
            ((afterFrames L w t p xs).mem p)
        ++ terminalCalls (afterFrames L w t p xs).mem
            ((afterFrames L w t p xs).threads i).shandle l2) ∧
    (∀ x, x.complete L → x.cbRet = 0 →
      (processEvent L (afterFrames L w t p xs) t (readable p) x).calls
        = (afterFrames L w t p xs).calls ++
          [frameInfo (afterFrames L w t p xs) t p
            (x.headRead.data ++ x.bodyRead.data) (decodeMsgLen L x.headRead.data)] ∧
      (processEvent L (afterFrames L w t p xs) t (readable p) x).mem p
        = SFdObj.zero ∧
      WorkerOK (processEvent L (afterFrames L w t p xs) t (readable p) x)
        i (l.erase p)) := by
  unfold afterFrames
  obtain ⟨_, e2, _, _, _, _, _⟩ := frames_spec L t p xs w hxs
  have hW1 := frames_workerOK (t := t) (p := p) hW hxs
  generalize taosProcessTcpData L w t (frameEvents p xs) = w1 at *
  have hth : (w1.mem p).thandle = lastHandle 0 xs := by rw [e2, h0]; rfl
  have hT := cleanup_tornDown hW1 hp
  have hT2 : ∀ w3, w3 = taosCleanUpFdObj w1 p → TornDown w1 w3 i l p := by
    intro w3 e
    rw [e]
    exact hT
  refine ⟨hth, ?_, ?_, ?_, ?_, ?_, ?_, ?_⟩
  · rw [lastHandle_ne_zero xs 0 (fun x hx => (hxs x hx).2)]
    simp
  · unfold terminalFor
    rw [hth]
  · intro ev x hev h
    exact hT2 _ (by rw [processEvent_errhup h, hev])
  · intro x hx
    exact hT2 _ (processEvent_incomplete hx)
  · refine hT2 _ ?_
    unfold taosCloseTcpServerConnection
    rw [if_neg (hW1.live hp).ne_null]
  · obtain ⟨l1, l2, hl⟩ := List.append_of_mem hp
    obtain ⟨w2, d1, _, _, _, d5, _⟩ := drainLoop_spec l w1 i hW1 l.length (Nat.le_refl _)
    refine ⟨w2, l1, l2, hl, d1, ?_⟩
    rw [d5]
    conv_lhs => rw [hl]
    have : l1 ++ p :: l2 = l1 ++ ([p] ++ l2) := rfl
    rw [this, terminalCalls_append, terminalCalls_append, terminalCalls_single]
    simp only [List.append_assoc]
  · intro x hx hr
    rw [processEvent_complete hx]
    simp only [hr, if_true]
    have hW2 : WorkerOK ((w1.addCall (frameInfo w1 t p (x.headRead.data ++ x.bodyRead.data)
        (decodeMsgLen L x.headRead.data))).setMem p ((w1.mem p).setThandle 0)) i l := by
      refine hW1.of_agree rfl rfl (fun q => ?_)
      by_cases hq : q = p
      · subst hq; simp
      · simp [Mem.set_other _ _ hq]
    have hT3 := cleanup_tornDown hW2 hp
    refine ⟨?_, hT3.zeroed, hT3.unlinked⟩
    rw [hT3.calls]
    simp [terminalFor]

/-- Witness for `terminal_callback_iff_stored`: the frame `"A"` is completed on
the record at 300 of `threeConns` and its callback returns 7; a later close
delivers the terminal callback with that handle. -/
theorem terminal_callback_iff_stored_witness :
    WorkerOK threeConns 0 [300, 100] ∧ 300 ∈ [300, 100] ∧ (threeConns.mem 300).thandle = 0 ∧
    (∀ x ∈ [frameA.readIn sampleLayout true 7], x.complete sampleLayout ∧ x.cbRet ≠ 0) ∧
    TornDown (afterFrames sampleLayout threeConns 0 300 [frameA.readIn sampleLayout true 7])
      (taosCloseTcpServerConnection
        (afterFrames sampleLayout threeConns 0 300 [frameA.readIn sampleLayout true 7]) 300)
      0 [300, 100] 300 ∧
    lastHandle 0 [frameA.readIn sampleLayout true 7] = 7 :=
  ⟨⟨by decide, by decide, by decide, by decide⟩, by decide, by decide, by decide,
    (terminal_callback_iff_stored sampleLayout threeConns 0 [300, 100] 300 0
      [frameA.readIn sampleLayout true 7] ⟨by decide, by decide, by decide, by decide⟩
      (by decide) (by decide) (by decide)).2.2.2.2.2.1,
    by decide⟩

/-- Counterexample to C3 as stated: on the record at 300 the callback of the
first frame returns the non-null handle 7 and the callback of the second frame
returns null.  The record is torn down (it leaves the list and its block is
zeroed), an earlier non-terminal callback had returned a non-null handle, and
yet no terminal callback is delivered: the only callbacks are the two
non-terminal ones. -/
theorem terminal_callback_counterexample :
    WorkerOK threeConns 0 [300, 100] ∧ threeConns.calls = [] ∧
    (taosProcessTcpData sampleLayout threeConns 0
      (frameEvents 300 [frameA.readIn sampleLayout true 7])).mem 300
      = (threeConns.mem 300).setThandle 7 ∧
    (taosProcessTcpData sampleLayout threeConns 0
      (frameEvents 300 [frameA.readIn sampleLayout true 7, frameBB.readIn sampleLayout true 0])).calls
      = [{ msg := some [0, 0, 0, 9, 0, 0, 0, 0, 65], msgLen := 9, ip := 16777343, port := 80,
           shandle := 77, thandle := 0, chandle := 300 },
         { msg := some [0, 0, 0, 10, 0, 0, 0, 0, 66, 66], msgLen := 10, ip := 16777343,
           port := 80, shandle := 77, thandle := 7, chandle := 300 }] ∧
    (taosProcessTcpData sampleLayout threeConns 0
      (frameEvents 300 [frameA.readIn sampleLayout true 7, frameBB.readIn sampleLayout true 0])).mem 300
      = SFdObj.zero ∧
    WorkerOK (taosProcessTcpData sampleLayout threeConns 0
      (frameEvents 300 [frameA.readIn sampleLayout true 7, frameBB.readIn sampleLayout true 0]))
      0 [100] :=
  ⟨⟨by decide, by decide, by decide, by decide⟩, by decide, by decide, by decide, by decide,
    ⟨by decide, by decide, by decide, by decide⟩⟩

/-! ### C9: descriptors at stop -/

/-- C9, the code at the failing input: `taosInitTcpServer` succeeds with one
worker (epoll descriptor 3), the acceptor opens the listening socket 5, and no
connection is ever accepted.  When `taosCleanUpTcpServer` returns, the epoll
descriptor is closed but the listening socket is still open.  The same happens
with connections: after three admissions and a teardown, stop closes every
connection descriptor and both epoll descriptors and leaves the listening
socket open. -/
theorem stop_leaves_listening_socket_open :
    taosInitTcpServer 1 77 initOk = some (started 1) ∧
    acceptorOpen (started 1) 5 = some (listening 1 5) ∧
    (listening 1 5).openFds = [5, 3] ∧
    openAfterStop 0 (listening 1 5) = some [5] ∧
    taosInitTcpServer 2 77 initOk = some (started 2) ∧
    acceptorOpen (started 2) 5 = some (listening 2 5) ∧
    (regRun (listening 2 5) [.admission (admitIn 10 100), .admission (admitIn 11 200),
      .admission (admitIn 12 300), .teardown 200]).openFds = [12, 10, 5, 4, 3] ∧
    openAfterStop 2 (regRun (listening 2 5) [.admission (admitIn 10 100),
      .admission (admitIn 11 200), .admission (admitIn 12 300), .teardown 200]) = some [5] :=
  ⟨rfl, rfl, by decide, by decide, rfl, rfl, by decide, by decide⟩

/-! ### C7: the upper handle of one connection within a run of the server -/

theorem quiet_refl (p : Nat) (w : World) : Quiet p w w :=
  ⟨⟨[], by simp, by simp⟩, rfl, id, fun _ => rfl⟩

theorem quiet_trans {p : Nat} {w1 w2 w3 : World} (h1 : Quiet p w1 w2) (h2 : Quiet p w2 w3) :
    Quiet p w1 w3 := by
  obtain ⟨c1, e1, f1⟩ := h1.calls
  obtain ⟨c2, e2, f2⟩ := h2.calls
  refine ⟨⟨c1 ++ c2, by rw [e2, e1, List.append_assoc], ?_⟩, h2.core.trans h1.core,
    fun h => h2.alloc (h1.alloc h), fun j => (h2.shandle j).trans (h1.shandle j)⟩
  intro c hc
  rcases List.mem_append.1 hc with h | h
  · exact f1 c h
  · exact f2 c h

theorem cleanup_quiet {p q : Nat} (w : World) (hp : p ≠ 0) (hq : q ≠ p) :
    Quiet p w (taosCleanUpFdObj w q) := by
  rcases cleanup_cases w q with h | ⟨t, hl⟩
  · rw [h]; exact quiet_refl p w
  · refine ⟨⟨_, cleanup_calls hl, ?_⟩, cleanup_core hl (Ne.symm hq), ?_, ?_⟩
    · intro c hc
      split_ifs at hc
      · simp only [List.mem_singleton] at hc
        subst hc
        exact fun e => hp e.symm
      · simp at hc
    · intro h
      rw [cleanup_allocated hl]
      exact (List.mem_erase_of_ne (Ne.symm hq)).2 h
    · intro j
      by_cases hj : j = t
      · subst hj; rw [cleanup_threads_owner hl]; rfl
      · rw [cleanup_threads_other hl hj]

theorem accept_quiet {p : Nat} {w : World} {a : AcceptIn} (hf : mallocFresh w a)
    (hp : p ∈ w.allocated) : Quiet p w (acceptLoopBody w a) := by
  by_cases ha : a.admitted
  · have hne : p ≠ a.mallocRet := fun e => hf ha.1 ha.2.1 (e ▸ hp)
    have hr := accept_rest (w := w) ha
    refine ⟨⟨[], by rw [hr.2.2.2.2.2]; simp, by simp⟩, (accept_mem_other ha hne).1, ?_, ?_⟩
    · intro h; rw [hr.1]; exact List.mem_cons_of_mem _ h
    · intro j
      rw [accept_threads ha]
      split_ifs <;> rfl
  · unfold acceptLoopBody
    by_cases h1 : a.connFd < 0
    · simp only [h1, if_true]; exact quiet_refl p w
    · by_cases h2 : a.mallocRet = 0
      · simp only [h1, h2, if_true, if_false]
        exact ⟨⟨[], by simp, by simp⟩, rfl, id, fun _ => rfl⟩
      · have h3 : a.epollCtlRet < 0 := by
          by_contra h3
          exact ha ⟨not_lt.1 h1, h2, not_lt.1 h3⟩
        have hne : p ≠ a.mallocRet := fun e => hf (not_lt.1 h1) h2 (e ▸ hp)
        simp only [h1, h2, h3, if_true, if_false]
        refine ⟨⟨[], by simp, by simp⟩, ?_, ?_, fun _ => rfl⟩
        · simp [Mem.set_other _ _ hne]
        · intro h
          simp only [World.close_allocated, World.free_allocated, World.setMem_allocated,
            World.alloc_allocated, World.openFd_allocated, List.erase_cons_head]
          exact h

theorem processEvent_quiet {L : Layout} {p : Nat} (w : World) (t : Nat) {ev : EpollEvent}
    (x : FrameIn) (hp : p ≠ 0) (hq : ev.ptr ≠ p) : Quiet p w (processEvent L w t ev x) := by
  by_cases herr : ev.epollerr = true ∨ ev.epollhup = true
  · rw [processEvent_errhup herr]; exact cleanup_quiet w hp hq
  · have hev : ev = readable ev.ptr := by
      cases ev with
      | mk ptr e1 e2 =>
        simp only [not_or, Bool.not_eq_true] at herr
        simp only [readable, EpollEvent.mk.injEq, true_and]
        exact ⟨herr.1, herr.2⟩
    rw [hev]
    by_cases hc : x.complete L
    · rw [processEvent_complete hc]
      have hstore : Quiet p w ((w.addCall (frameInfo w t ev.ptr (x.headRead.data ++ x.bodyRead.data)
          (decodeMsgLen L x.headRead.data))).setMem ev.ptr ((w.mem ev.ptr).setThandle x.cbRet)) := by
        refine ⟨⟨[_], rfl, ?_⟩, ?_, id, fun _ => rfl⟩
        · intro c hc2
          simp only [List.mem_singleton] at hc2
          subst hc2
          exact hq
        · simp [Mem.set_other _ _ (Ne.symm hq)]
      simp only
      split_ifs
      · exact quiet_trans hstore (cleanup_quiet _ hp hq)
      · exact hstore
    · rw [processEvent_incomplete hc]; exact cleanup_quiet w hp hq

theorem close_quiet {p c : Nat} (w : World) (hp : p ≠ 0) (hc : c ≠ p) :
    Quiet p w (taosCloseTcpServerConnection w c) := by
  unfold taosCloseTcpServerConnection
  split_ifs
  · exact quiet_refl p w
  · exact cleanup_quiet w hp hc

theorem SFdObj.core_fields {a b : SFdObj} (h : a.core = b.core) :
    a.signature = b.signature ∧ a.fd = b.fd ∧ a.thandle = b.thandle ∧ a.ip = b.ip ∧
      a.port = b.port ∧ a.pThreadObj = b.pThreadObj := by
  unfold SFdObj.core at h
  simp only [Prod.mk.injEq] at h
  exact h

theorem frameCalls_append (L : Layout) (sh ip port p : Nat) :
    ∀ (xs : List FrameIn) (h : Nat) (y : FrameIn),
    frameCalls L sh ip port p h (xs ++ [y]) =
      frameCalls L sh ip port p h xs ++
        [{ msg := some (y.headRead.data ++ y.bodyRead.data),
           msgLen := decodeMsgLen L y.headRead.data,
           ip := ip, port := port, shandle := sh, thandle := lastHandle h xs, chandle := p }]
  | [], h, y => rfl
  | x :: xs, h, y => by
    have ih := frameCalls_append L sh ip port p xs x.cbRet y
    show _ :: frameCalls L sh ip port p x.cbRet (xs ++ [y]) = _
    rw [ih]
    rfl

/-- The callbacks for one connection during a run that keeps it in service:
among the callbacks of the run, those with the record at `p` as `chandle` are
the calls for the frames read on `p`, each carrying the handle returned by the
one before. -/
theorem srv_threading (L : Layout) (p t : Nat) (hp : p ≠ 0) :
    ∀ (es : List SrvEvent) (w : World), p ∈ w.allocated → (w.mem p).pThreadObj = some t →
    Keeps L p w es →
    ∃ cs, (srvRun L w es).calls = w.calls ++ cs ∧
      cs.filter (fun c => decide (c.chandle = p)) =
        frameCalls L (w.threads t).shandle (w.mem p).ip (w.mem p).port p (w.mem p).thandle
          (framesOn p es) ∧
      ((srvRun L w es).mem p).core =
        ((w.mem p).setThandle (lastHandle (w.mem p).thandle (framesOn p es))).core ∧
      p ∈ (srvRun L w es).allocated ∧
      ∀ j, ((srvRun L w es).threads j).shandle = (w.threads j).shandle
  | [], w, ha, _, _ => ⟨[], by simp [srvRun], by simp [framesOn, frameCalls],
      by simp [srvRun, framesOn, lastHandle, SFdObj.core], ha, fun _ => rfl⟩
  | e :: es, w, ha, ho, hk => by
    obtain ⟨hk1, hk2⟩ := hk
    have hrun : srvRun L w (e :: es) = srvRun L (srvStep L w e) es := rfl
    rw [hrun]
    -- the steps that are not a frame on `p`
    have quiet : ∀ w1, w1 = srvStep L w e → Quiet p w w1 → SrvEvent.frameOn p e = none →
        ∃ cs, (srvRun L w1 es).calls = w.calls ++ cs ∧
          cs.filter (fun c => decide (c.chandle = p)) =
            frameCalls L (w.threads t).shandle (w.mem p).ip (w.mem p).port p (w.mem p).thandle
              (framesOn p (e :: es)) ∧
          ((srvRun L w1 es).mem p).core =
            ((w.mem p).setThandle (lastHandle (w.mem p).thandle (framesOn p (e :: es)))).core ∧
          p ∈ (srvRun L w1 es).allocated ∧
          ∀ j, ((srvRun L w1 es).threads j).shandle = (w.threads j).shandle := by
      intro w1 hw1 hq hf
      obtain ⟨f1, f2, f3, f4, f5, f6⟩ := SFdObj.core_fields hq.core
      obtain ⟨c1, hc1, hc1p⟩ := hq.calls
      obtain ⟨cs, i1, i2, i3, i4, i5⟩ := srv_threading L p t hp es w1 (hq.alloc ha)
        (f6.trans ho) (hw1 ▸ hk2)
      have hfo : framesOn p (e :: es) = framesOn p es := by
        simp [framesOn, List.filterMap_cons, hf]
      rw [hfo]
      refine ⟨c1 ++ cs, by rw [i1, hc1, List.append_assoc], ?_, ?_, i4,
        fun j => (i5 j).trans (hq.shandle j)⟩
      · rw [List.filter_append, i2, hq.shandle t, f4, f5, f3]
        have : c1.filter (fun c => decide (c.chandle = p)) = [] := by
          rw [List.filter_eq_nil_iff]
          intro c hc
          simpa using hc1p c hc
        rw [this, List.nil_append]
      · rw [i3, f3]
        unfold SFdObj.core
        simp only [SFdObj.setThandle_signature, SFdObj.setThandle_fd, SFdObj.setThandle_thandle,
          SFdObj.setThandle_ip, SFdObj.setThandle_port, SFdObj.setThandle_pThreadObj,
          f1, f2, f4, f5, f6]
    cases e with
    | accept a => exact quiet _ rfl (accept_quiet hk1 ha) rfl
    | close c => exact quiet _ rfl (close_quiet w hp hk1) rfl
    | event t2 ev x =>
      by_cases hev : ev.ptr = p
      · obtain ⟨h1, h2, h3, h4⟩ := hk1 hev
        have htt : t2 = t := by
          rw [ho] at h2; exact (Option.some.inj h2).symm
        subst htt
        have hstep : srvStep L w (.event t2 ev x) =
            (w.addCall (frameInfo w t2 p (x.headRead.data ++ x.bodyRead.data)
              (decodeMsgLen L x.headRead.data))).setMem p ((w.mem p).setThandle x.cbRet) := by
          show processEvent L w t2 ev x = _
          rw [h1, processEvent_stored h3 h4]
        rw [hstep] at hk2 ⊢
        obtain ⟨cs, i1, i2, i3, i4, i5⟩ := srv_threading L p t2 hp es _
          (by simpa using ha) (by simpa using ho) hk2
        have hfo : framesOn p (SrvEvent.event t2 ev x :: es) = x :: framesOn p es := by
          simp [framesOn, List.filterMap_cons, SrvEvent.frameOn, hev]
        rw [hfo]
        simp only [World.setMem_calls, World.addCall_calls, World.setMem_mem, World.addCall_mem,
          Mem.set_same, World.setMem_threads, World.addCall_threads, SFdObj.setThandle_ip,
          SFdObj.setThandle_port, SFdObj.setThandle_thandle] at i1 i2 i3 i5
        refine ⟨_ :: cs, by rw [i1, List.append_assoc]; rfl, ?_, ?_, i4, i5⟩
        · rw [List.filter_cons]
          simp only [frameInfo, decide_True, if_true, frameCalls]
          rw [i2]
        · rw [i3]
          rfl
      · exact quiet _ rfl (processEvent_quiet w t2 x hp hev)
          (by simp [SrvEvent.frameOn, hev])

theorem static_refl (w : World) : Static w w := ⟨rfl, fun _ => rfl, id⟩

theorem static_trans {w1 w2 w3 : World} (h1 : Static w1 w2) (h2 : Static w2 w3) :
    Static w1 w3 :=
  ⟨h2.workers.trans h1.workers, fun j => (h2.shandle j).trans (h1.shandle j),
    fun h => h2.threadId (h1.threadId h)⟩

theorem cleanup_static (w : World) (q : Nat) : Static w (taosCleanUpFdObj w q) := by
  refine ⟨cleanup_numOfThreads w q, ?_, ?_⟩
  · rcases cleanup_cases w q with h | ⟨t, hl⟩
    · rw [h]; exact fun _ => rfl
    · intro j
      by_cases hj : j = t
      · subst hj; rw [cleanup_threads_owner hl]; rfl
      · rw [cleanup_threads_other hl hj]
  · rw [cleanup_threadId, cleanup_numOfThreads]; exact id

theorem accept_static (w : World) (a : AcceptIn) : Static w (acceptLoopBody w a) := by
  by_cases ha : a.admitted
  · have hr := accept_rest (w := w) ha
    refine ⟨hr.2.1, ?_, ?_⟩
    · intro j
      rw [accept_threads ha]
      split_ifs <;> rfl
    · intro h
      rw [hr.2.2.1, hr.2.1]
      exact Nat.mod_lt _ (Nat.lt_of_le_of_lt (Nat.zero_le _) h)
  · unfold acceptLoopBody
    by_cases h1 : a.connFd < 0
    · simp only [h1, if_true]; exact static_refl w
    · by_cases h2 : a.mallocRet = 0
      · simp only [h1, h2, if_true, if_false]
        exact ⟨rfl, fun _ => rfl, id⟩
      · have h3 : a.epollCtlRet < 0 := by
          by_contra h3
          exact ha ⟨not_lt.1 h1, h2, not_lt.1 h3⟩
        simp only [h1, h2, h3, if_true, if_false]
        exact ⟨rfl, fun _ => rfl, id⟩

theorem processEvent_static (L : Layout) (w : World) (t : Nat) (ev : EpollEvent) (x : FrameIn) :
    Static w (processEvent L w t ev x) := by
  by_cases herr : ev.epollerr = true ∨ ev.epollhup = true
  · rw [processEvent_errhup herr]; exact cleanup_static w _
  · have hev : ev = readable ev.ptr := by
      cases ev with
      | mk ptr e1 e2 =>
        simp only [not_or, Bool.not_eq_true] at herr
        simp only [readable, EpollEvent.mk.injEq, true_and]
        exact ⟨herr.1, herr.2⟩
    rw [hev]
    by_cases hc : x.complete L
    · rw [processEvent_complete hc]
      have hstore : Static w ((w.addCall (frameInfo w t ev.ptr
          (x.headRead.data ++ x.bodyRead.data) (decodeMsgLen L x.headRead.data))).setMem ev.ptr
          ((w.mem ev.ptr).setThandle x.cbRet)) := ⟨rfl, fun _ => rfl, id⟩
      simp only
      split_ifs
      · exact static_trans hstore (cleanup_static _ _)
      · exact hstore
    · rw [processEvent_incomplete hc]; exact cleanup_static w _

theorem srvStep_static (L : Layout) (w : World) (e : SrvEvent) : Static w (srvStep L w e) := by
  cases e with
  | accept a => exact accept_static w a
  | event t ev x => exact processEvent_static L w t ev x
  | close c =>
    show Static w (taosCloseTcpServerConnection w c)
    unfold taosCloseTcpServerConnection
    split_ifs
    · exact static_refl w
    · exact cleanup_static w c

theorem srvRun_static (L : Layout) : ∀ (es : List SrvEvent) (w : World),
    Static w (srvRun L w es)
  | [], w => static_refl w
  | e :: es, w => static_trans (srvStep_static L w e) (srvRun_static L es (srvStep L w e))

theorem srvRun_append (L : Layout) (w : World) (es fs : List SrvEvent) :
    srvRun L w (es ++ fs) = srvRun L (srvRun L w es) fs := by
  simp [srvRun, List.foldl_append]

/-- C7. Upper-handle threading.  The server is started with the shared handle
`sh`; after any run `pre` a connection is admitted, its record being at `p`;
then the server runs on (`es`: iterations of the acceptor, events for this and
for other connections, closes of other connections) while the connection
stays in service, and at last one more frame `y` is read on it, whose callback
may return anything.  Among all callbacks made since the admission, those for
this connection (`chandle = p`, the connection's own record) are exactly one
per frame read on it, in order; the first carries `thandle` null, each later
one carries the value the callback before it returned, and all carry the
`shandle` given to `taosInitTcpServer`. -/
theorem upper_handle_threading (L : Layout) (N sh : Nat) (x0 : InitIn) (w0 : World)
    (pre : List SrvEvent) (a : AcceptIn) (es : List SrvEvent) (y : FrameIn)
    (hN : 0 < N) (hstart : taosInitTcpServer N sh x0 = some w0) (ha : a.admitted)
    (hk : Keeps L a.mallocRet (acceptLoopBody (srvRun L w0 pre) a) es) (hy : y.complete L) :
    ∃ cs, (srvRun L (acceptLoopBody (srvRun L w0 pre) a)
        (es ++ [.event (srvRun L w0 pre).threadId (readable a.mallocRet) y])).calls
        = (acceptLoopBody (srvRun L w0 pre) a).calls ++ cs ∧
      cs.filter (fun c => decide (c.chandle = a.mallocRet)) =
        frameCalls L sh a.sinAddr (htons a.sinPort) a.mallocRet 0
          (framesOn a.mallocRet es ++ [y]) := by
  obtain ⟨e1, e2, _, _, _, _, e7⟩ := init_spec hstart
  have hs1 := srvRun_static L pre w0
  generalize srvRun L w0 pre = w1 at *
  have htid : w1.threadId < N := by
    have := hs1.threadId (by rw [e2, e1]; exact hN)
    rwa [hs1.workers, e1] at this
  have hsh1 : (w1.threads w1.threadId).shandle = sh := by
    rw [hs1.shandle]; exact e7 _ htid
  have hp : a.mallocRet ≠ 0 := ha.2.1
  have hnew := accept_mem_new (w := w1) ha
  obtain ⟨_, _, f3, f4, f5, f6⟩ := SFdObj.core_fields hnew.1
  have hr := accept_rest (w := w1) ha
  have hsh2 : ((acceptLoopBody w1 a).threads w1.threadId).shandle = sh := by
    rw [(accept_static w1 a).shandle]; exact hsh1
  generalize acceptLoopBody w1 a = w2 at *
  obtain ⟨cs, i1, i2, i3, i4, i5⟩ := srv_threading L a.mallocRet w1.threadId hp es w2
    (by rw [hr.1]; exact List.mem_cons_self _ _) f6 hk
  rw [hsh2, f3, f4, f5] at i2
  rw [f3] at i3
  obtain ⟨_, _, g3, g4, g5, _⟩ := SFdObj.core_fields i3
  rw [srvRun_append]
  generalize srvRun L w2 es = w3 at *
  have hlast : ∃ ds, (srvRun L w3 [.event w1.threadId (readable a.mallocRet) y]).calls =
      w3.calls ++ [frameInfo w3 w1.threadId a.mallocRet (y.headRead.data ++ y.bodyRead.data)
        (decodeMsgLen L y.headRead.data)] ++ ds ∧ ds = [] := by
    show ∃ ds, (processEvent L w3 w1.threadId (readable a.mallocRet) y).calls = _ ∧ _
    rw [processEvent_complete hy]
    simp only
    split_ifs with hr0
    · rcases cleanup_cases ((w3.addCall (frameInfo w3 w1.threadId a.mallocRet
          (y.headRead.data ++ y.bodyRead.data) (decodeMsgLen L y.headRead.data))).setMem
          a.mallocRet ((w3.mem a.mallocRet).setThandle y.cbRet)) a.mallocRet with h | ⟨t, hl⟩
      · rw [h]; exact ⟨[], by simp, rfl⟩
      · refine ⟨[], ?_, rfl⟩
        rw [cleanup_calls hl]
        simp [hr0]
    · exact ⟨[], by simp, rfl⟩
  obtain ⟨ds, hd1, hd2⟩ := hlast
  subst hd2
  refine ⟨cs ++ [frameInfo w3 w1.threadId a.mallocRet (y.headRead.data ++ y.bodyRead.data)
      (decodeMsgLen L y.headRead.data)], ?_, ?_⟩
  · rw [hd1, i1]; simp
  · rw [List.filter_append, i2, frameCalls_append]
    congr 1
    rw [List.filter_cons]
    simp only [frameInfo, decide_True, if_true, List.filter_nil]
    rw [i5, hsh2, g3, g4, g5]
    simp [f4, f5, newFdObj]

/-- Witness for `upper_handle_threading`: two workers started with the shared
handle 77; after one admission the record at 200 is admitted; during
`sampleSteps` the frame `"A"` is read on it (the callback returns 7), and then
the frame `"BB"` (the callback returns null). -/
theorem upper_handle_threading_witness :
    taosInitTcpServer 2 77 initOk = some (started 2) ∧
    (admitIn 11 200).admitted ∧
    Keeps sampleLayout (admitIn 11 200).mallocRet
      (acceptLoopBody (srvRun sampleLayout (started 2) [.accept (admitIn 10 100)])
        (admitIn 11 200)) sampleSteps ∧
    (frameBB.readIn sampleLayout true 0).complete sampleLayout ∧
    ∃ cs, (srvRun sampleLayout
        (acceptLoopBody (srvRun sampleLayout (started 2) [.accept (admitIn 10 100)])
          (admitIn 11 200))
        (sampleSteps ++ [.event (srvRun sampleLayout (started 2)
          [.accept (admitIn 10 100)]).threadId (readable (admitIn 11 200).mallocRet)
          (frameBB.readIn sampleLayout true 0)])).calls
        = (acceptLoopBody (srvRun sampleLayout (started 2) [.accept (admitIn 10 100)])
            (admitIn 11 200)).calls ++ cs ∧
      cs.filter (fun c => decide (c.chandle = (admitIn 11 200).mallocRet)) =
        frameCalls sampleLayout 77 (admitIn 11 200).sinAddr (htons (admitIn 11 200).sinPort)
          (admitIn 11 200).mallocRet 0
          (framesOn (admitIn 11 200).mallocRet sampleSteps
            ++ [frameBB.readIn sampleLayout true 0]) :=
  ⟨rfl, by decide, by decide, by decide,
    upper_handle_threading sampleLayout 2 77 initOk (started 2) [.accept (admitIn 10 100)]
      (admitIn 11 200) sampleSteps (frameBB.readIn sampleLayout true 0)
      (by decide) rfl (by decide) (by decide) (by decide)⟩


end RpcServer
